import Mathlib

/-!
Formal model of the TRON wallet core of this repository
(`packages/wallet/main.go`): hierarchical-deterministic key derivation
(`DeriveTronAddressFromMnemonic`) and address encoding
(`PrivateKeyToTronAddress`), together with proofs and refutations of the
specification claims about them.

Modelling conventions:

* Go byte slices are `List Nat` with entries below 256; Go strings are the
  `List Nat` of their byte values (the wallet only ever compares, hex-encodes
  or base58-encodes them, so no further string structure is needed).
* Machine integers are `Nat` with explicit reduction (`% 2 ^ 64`,
  `% 2 ^ 32`) at the points where the Go code relies on fixed width.
* `math/big` integers are `Nat`; `big.Int.SetBytes` is `bytesToNat`,
  `big.Int.Bytes` (minimal big-endian form, empty for zero) is `natBytes`.
* Field elements of the two elliptic curves are `ZMod p` for the concrete
  curve primes; curve points are `Option (ZMod p × ZMod p)` with `none` for
  the point at infinity.  `crypto/elliptic.P256().ScalarBaseMult` computes
  the scalar multiple in the curve group of order `n256`, and converts the
  identity to the affine pair `(0, 0)`; the model reduces the scalar
  `% n256` first, which is the same group element for every input.
* The external hash and HMAC primitives (Keccak-256, SHA-512) are
  implemented concretely.  The BIP32 layer is additionally stated in a form
  parameterised over the seed-derivation and HMAC-SHA512 functions, mirroring
  the component boundary the specification itself draws between
  SeedDerivation, HDKeyTree and AddressEncoder; the concrete entry point
  instantiates the parameters with the real primitives.
* `tyler-smith/go-bip32`, `tyler-smith/go-bip39`, `btcsuite/btcutil/base58`,
  `golang.org/x/crypto/sha3` and `golang.org/x/crypto/pbkdf2` are vendored
  external libraries; their algorithms are modelled from their documented
  standard behaviour (BIP32/BIP39/base58check/Keccak/PBKDF2), which the
  specification restates in detail.
-/

set_option maxRecDepth 40000

set_option maxHeartbeats 3200000

/-! ## Byte-level utilities -/

/-- Big-endian interpretation of a byte list as a natural number:
`big.Int.SetBytes`. -/
def bytesToNat (bs : List Nat) : Nat :=
  bs.foldl (fun acc b => acc * 256 + b) 0

/-- Little-endian interpretation of a byte list, used to reason about
`bytesToNat` by structural induction. -/
def ofBytesLE : List Nat → Nat
  | [] => 0
  | b :: t => b + 256 * ofBytesLE t

/-- Little-endian byte digits of a natural number, most significant last;
`fuel` bounds the recursion and is always chosen at least `log 256 n + 1`. -/
def natBytesRev : Nat → Nat → List Nat
  | 0, _ => []
  | fuel + 1, n => if n = 0 then [] else n % 256 :: natBytesRev fuel (n / 256)

/-- Minimal big-endian byte representation of a natural number, empty for
zero: `big.Int.Bytes` for the values (below `2 ^ 320`) this model handles. -/
def natBytes (n : Nat) : List Nat :=
  (natBytesRev 40 n).reverse

/-- Left-pads a byte list with zeros to the given width, as the BIP32
library does for 32-byte private keys. -/
def padLeft (w : Nat) (bs : List Nat) : List Nat :=
  List.replicate (w - bs.length) 0 ++ bs

/-- Big-endian 4-byte serialisation of a 32-bit child index
(`binary.BigEndian.PutUint32`). -/
def ser32 (i : Nat) : List Nat :=
  [i / 16777216 % 256, i / 65536 % 256, i / 256 % 256, i % 256]

/-- Lowercase hexadecimal digit of a value below 16 (`encoding/hex`). -/
def hexDigit (n : Nat) : Nat :=
  if n < 10 then 48 + n else 87 + n

/-- Lowercase hexadecimal rendering of a byte list as ASCII codes:
`hex.EncodeToString`. -/
def hexEncode (bs : List Nat) : List Nat :=
  bs.foldr (fun b acc => hexDigit (b / 16) :: hexDigit (b % 16) :: acc) []

/-- Value of one ASCII hexadecimal digit, accepting both cases;
`none` for a non-digit (`encoding/hex` errors there). -/
def hexDigitVal (c : Nat) : Option Nat :=
  if 48 ≤ c ∧ c ≤ 57 then some (c - 48)
  else if 97 ≤ c ∧ c ≤ 102 then some (c - 87)
  else if 65 ≤ c ∧ c ≤ 70 then some (c - 55)
  else none

/-- Decoding of an ASCII hexadecimal string to bytes: `hex.DecodeString`,
failing on odd length or invalid digits. -/
def hexDecode : List Nat → Option (List Nat)
  | [] => some []
  | [_] => none
  | c1 :: c2 :: t =>
    match hexDigitVal c1, hexDigitVal c2, hexDecode t with
    | some h1, some h2, some rest => some ((h1 * 16 + h2) :: rest)
    | _, _, _ => none

/-! ## Keccak-256 (`sha3.NewLegacyKeccak256`)

The legacy Keccak variant: rate 136 bytes, multi-rate padding with domain
byte `0x01`, 24 rounds of Keccak-f[1600].  Lanes are `Nat` values below
`2 ^ 64`, the state is the 25-lane list in `x + 5 * y` order. -/

/-- Left rotation of a 64-bit lane. -/
def rol64 (n x : Nat) : Nat :=
  ((x <<< n) ||| (x >>> (64 - n))) % 18446744073709551616

/-- Round constants of Keccak-f[1600]. -/
def keccakRC : List Nat := [1, 32898, 9223372036854808714, 9223372039002292224, 32907, 2147483649, 9223372039002292353, 9223372036854808585, 138, 136, 2147516425, 2147483658, 2147516555, 9223372036854775947, 9223372036854808713, 9223372036854808579, 9223372036854808578, 9223372036854775936, 32778, 9223372039002259466, 9223372039002292353, 9223372036854808704, 2147483649, 9223372039002292232]


/-- One application of the Keccak-f[1600] round function θ, ρ, π, χ, ι with
round constant `rc`, on the 25-lane state in `x + 5 * y` order. -/
def keccakRound (rc : Nat) (s : List Nat) : List Nat :=
  match s with
  | [s0, s1, s2, s3, s4, s5, s6, s7, s8, s9, s10, s11, s12, s13, s14, s15, s16, s17, s18, s19, s20, s21, s22, s23, s24] =>
    let c0 := s0 ^^^ s5 ^^^ s10 ^^^ s15 ^^^ s20
    let c1 := s1 ^^^ s6 ^^^ s11 ^^^ s16 ^^^ s21
    let c2 := s2 ^^^ s7 ^^^ s12 ^^^ s17 ^^^ s22
    let c3 := s3 ^^^ s8 ^^^ s13 ^^^ s18 ^^^ s23
    let c4 := s4 ^^^ s9 ^^^ s14 ^^^ s19 ^^^ s24
    let d0 := c4 ^^^ rol64 1 c1
    let d1 := c0 ^^^ rol64 1 c2
    let d2 := c1 ^^^ rol64 1 c3
    let d3 := c2 ^^^ rol64 1 c4
    let d4 := c3 ^^^ rol64 1 c0
    let t0 := s0 ^^^ d0
    let t1 := s1 ^^^ d1
    let t2 := s2 ^^^ d2
    let t3 := s3 ^^^ d3
    let t4 := s4 ^^^ d4
    let t5 := s5 ^^^ d0
    let t6 := s6 ^^^ d1
    let t7 := s7 ^^^ d2
    let t8 := s8 ^^^ d3
    let t9 := s9 ^^^ d4
    let t10 := s10 ^^^ d0
    let t11 := s11 ^^^ d1
    let t12 := s12 ^^^ d2
    let t13 := s13 ^^^ d3
    let t14 := s14 ^^^ d4
    let t15 := s15 ^^^ d0
    let t16 := s16 ^^^ d1
    let t17 := s17 ^^^ d2
    let t18 := s18 ^^^ d3
    let t19 := s19 ^^^ d4
    let t20 := s20 ^^^ d0
    let t21 := s21 ^^^ d1
    let t22 := s22 ^^^ d2
    let t23 := s23 ^^^ d3
    let t24 := s24 ^^^ d4
    let b0 := t0
    let b1 := rol64 44 t6
    let b2 := rol64 43 t12
    let b3 := rol64 21 t18
    let b4 := rol64 14 t24
    let b5 := rol64 28 t3
    let b6 := rol64 20 t9
    let b7 := rol64 3 t10
    let b8 := rol64 45 t16
    let b9 := rol64 61 t22
    let b10 := rol64 1 t1
    let b11 := rol64 6 t7
    let b12 := rol64 25 t13
    let b13 := rol64 8 t19
    let b14 := rol64 18 t20
    let b15 := rol64 27 t4
    let b16 := rol64 36 t5
    let b17 := rol64 10 t11
    let b18 := rol64 15 t17
    let b19 := rol64 56 t23
    let b20 := rol64 62 t2
    let b21 := rol64 55 t8
    let b22 := rol64 39 t14
    let b23 := rol64 41 t15
    let b24 := rol64 2 t21
    [
      (b0 ^^^ ((18446744073709551615 - b1) &&& b2)) ^^^ rc,
      b1 ^^^ ((18446744073709551615 - b2) &&& b3),
      b2 ^^^ ((18446744073709551615 - b3) &&& b4),
      b3 ^^^ ((18446744073709551615 - b4) &&& b0),
      b4 ^^^ ((18446744073709551615 - b0) &&& b1),
      b5 ^^^ ((18446744073709551615 - b6) &&& b7),
      b6 ^^^ ((18446744073709551615 - b7) &&& b8),
      b7 ^^^ ((18446744073709551615 - b8) &&& b9),
      b8 ^^^ ((18446744073709551615 - b9) &&& b5),
      b9 ^^^ ((18446744073709551615 - b5) &&& b6),
      b10 ^^^ ((18446744073709551615 - b11) &&& b12),
      b11 ^^^ ((18446744073709551615 - b12) &&& b13),
      b12 ^^^ ((18446744073709551615 - b13) &&& b14),
      b13 ^^^ ((18446744073709551615 - b14) &&& b10),
      b14 ^^^ ((18446744073709551615 - b10) &&& b11),
      b15 ^^^ ((18446744073709551615 - b16) &&& b17),
      b16 ^^^ ((18446744073709551615 - b17) &&& b18),
      b17 ^^^ ((18446744073709551615 - b18) &&& b19),
      b18 ^^^ ((18446744073709551615 - b19) &&& b15),
      b19 ^^^ ((18446744073709551615 - b15) &&& b16),
      b20 ^^^ ((18446744073709551615 - b21) &&& b22),
      b21 ^^^ ((18446744073709551615 - b22) &&& b23),
      b22 ^^^ ((18446744073709551615 - b23) &&& b24),
      b23 ^^^ ((18446744073709551615 - b24) &&& b20),
      b24 ^^^ ((18446744073709551615 - b20) &&& b21)]
  | _ => s


/-- The full Keccak-f[1600] permutation: 24 rounds. -/
def keccakF (s : List Nat) : List Nat :=
  keccakRC.foldl (fun st rc => keccakRound rc st) s

/-- Multi-rate padding of the legacy Keccak variant: append `0x01`, zero-fill
to a multiple of the 136-byte rate, and xor `0x80` into the final byte. -/
def keccakPad (msg : List Nat) : List Nat :=
  let padLen := 136 - msg.length % 136
  if padLen = 1 then msg ++ [129]
  else msg ++ 1 :: List.replicate (padLen - 2) 0 ++ [128]

/-- A 64-bit lane from eight little-endian bytes. -/
def laneOfBytes (bs : List Nat) : Nat :=
  bs.foldr (fun b acc => acc * 256 + b) 0

/-- Splits a padded message into 17-lane (136-byte) blocks. -/
def keccakBlocks (bs : List Nat) : List (List Nat) :=
  (bs.toChunks 136).map fun blk => (blk.toChunks 8).map laneOfBytes

/-- Absorbs one 17-lane block into the state and permutes. -/
def keccakAbsorb (st : List Nat) (block : List Nat) : List Nat :=
  keccakF ((List.range 25).map fun i =>
    (st.getD i 0) ^^^ (block.getD i 0))

/-- Eight little-endian bytes of a 64-bit lane. -/
def laneBytes (w : Nat) : List Nat :=
  [w &&& 255, (w >>> 8) &&& 255, (w >>> 16) &&& 255, (w >>> 24) &&& 255,
   (w >>> 32) &&& 255, (w >>> 40) &&& 255, (w >>> 48) &&& 255, (w >>> 56) &&& 255]

/-- Keccak-256 digest (32 bytes) of a byte list: absorb all padded blocks
into the zero state, then squeeze the first four lanes. -/
def keccak256 (msg : List Nat) : List Nat :=
  let final := (keccakBlocks (keccakPad msg)).foldl keccakAbsorb (List.replicate 25 0)
  laneBytes (final.getD 0 0) ++ laneBytes (final.getD 1 0) ++
    laneBytes (final.getD 2 0) ++ laneBytes (final.getD 3 0)

/-! ## Elliptic-curve layer

Affine short-Weierstrass arithmetic over `ZMod p`, shared by the NIST P-256
curve used by `PrivateKeyToTronAddress` (`crypto/elliptic.P256`) and the
secp256k1 curve used by the BIP32 library (`btcec.S256`).  The point at
infinity is `none`; the modular inverse is computed as the `(p - 2)`-th power
(Fermat), which is the field inverse because both moduli are prime. -/

/-- Fast binary exponentiation in a monoid, fuel-bounded; agrees with `x ^ e`
whenever `e < 2 ^ fuel` (`bpow_eq_pow`). -/
def bpow {M : Type} [Monoid M] (x : M) : Nat → Nat → M
  | 0, _ => 1
  | fuel + 1, e =>
    if e = 0 then 1
    else
      let h := bpow x fuel (e / 2)
      h * h * (if e % 2 = 1 then x else 1)

/-- Modular inverse by Fermat: the `(p - 2)`-th power. -/
def ecInv {p : Nat} (x : ZMod p) : ZMod p :=
  bpow x 256 (p - 2)

/-- An affine curve point, `none` being the point at infinity. -/
abbrev AffPoint (p : Nat) : Type :=
  Option (ZMod p × ZMod p)

/-- The chord-and-tangent addition on the curve `y ^ 2 = x ^ 3 + a * x + b`,
with the usual case split: inverse points add to infinity, equal points use
the tangent slope, distinct `x`-coordinates use the chord slope. -/
def ecAdd {p : Nat} (a : ZMod p) : AffPoint p → AffPoint p → AffPoint p
  | none, q => q
  | some pt, none => some pt
  | some (x1, y1), some (x2, y2) =>
    if x1 = x2 ∧ y1 = -y2 then none
    else
      let lam := if x1 = x2 then (3 * x1 * x1 + a) * ecInv (y1 + y1)
                 else (y2 - y1) * ecInv (x2 - x1)
      let x3 := lam * lam - x1 - x2
      some (x3, lam * (x1 - x3) - y1)

/-- Binary double-and-add scalar multiplication, fuel-bounded; computes
`k • pt` for `k < 2 ^ fuel`. -/
def ecSmul {p : Nat} (a : ZMod p) : Nat → Nat → AffPoint p → AffPoint p
  | 0, _, _ => none
  | fuel + 1, k, pt =>
    if k = 0 then none
    else
      let r := ecSmul a fuel (k / 2) (ecAdd a pt pt)
      if k % 2 = 1 then ecAdd a pt r else r

/-- The NIST P-256 prime modulus. -/
def p256 : Nat := 115792089210356248762697446949407573530086143415290314195533631308867097853951

/-- The NIST P-256 group order. -/
def n256 : Nat := 115792089210356248762697446949407573529996955224135760342422259061068512044369

/-- The NIST P-256 coefficient `a = -3` (as the field element `p256 - 3`). -/
def a256 : ZMod p256 := 115792089210356248762697446949407573530086143415290314195533631308867097853948

/-- The NIST P-256 coefficient `b`. -/
def b256 : ZMod p256 := 41058363725152142129326129780047268409114441015993725554835256314039467401291

/-- The NIST P-256 base point, `x`-coordinate. -/
def gx256 : ZMod p256 := 48439561293906451759052585252797914202762949526041747995844080717082404635286

/-- The NIST P-256 base point, `y`-coordinate. -/
def gy256 : ZMod p256 := 36134250956749795798585127919587881956611106672985015071877198253568414405109

/-- The secp256k1 prime modulus. -/
def pK : Nat := 115792089237316195423570985008687907853269984665640564039457584007908834671663

/-- The secp256k1 group order. -/
def nK : Nat := 115792089237316195423570985008687907852837564279074904382605163141518161494337

/-- The secp256k1 base point, `x`-coordinate. -/
def gxK : ZMod pK := 55066263022277343669578718895168534326250603453777594175500187360389116729240

/-- The secp256k1 base point, `y`-coordinate. -/
def gyK : ZMod pK := 32670510020758816978083085130507043184471273380659243275938904335757337482424

/-- Scalar multiple of the P-256 base point as the pair of affine coordinate
values, with the point at infinity encoded as `(0, 0)`: the observable
behaviour of `elliptic.P256().ScalarBaseMult` followed by reading `X` and
`Y`.  The scalar is reduced `% n256` first: `normalizeScalar` reduces inputs
longer than 32 bytes, and for 32-byte scalars the group multiplication
itself only depends on the scalar modulo the group order `n256`. -/
def scalarBaseMult256 (d : Nat) : Nat × Nat :=
  match ecSmul a256 256 (d % n256) (some (gx256, gy256)) with
  | none => (0, 0)
  | some (x, y) => (x.val, y.val)

/-! ## Base58 (`btcsuite/btcutil/base58`) -/

/-- ASCII codes of the Bitcoin base58 alphabet
`123456789ABCDEFGHJKLMNPQRSTUVWXYZabcdefghijkmnopqrstuvwxyz`. -/
def b58Alphabet : List Nat := [49, 50, 51, 52, 53, 54, 55, 56, 57, 65, 66, 67, 68, 69, 70, 71, 72, 74, 75, 76, 77, 78, 80, 81, 82, 83, 84, 85, 86, 87, 88, 89, 90, 97, 98, 99, 100, 101, 102, 103, 104, 105, 106, 107, 109, 110, 111, 112, 113, 114, 115, 116, 117, 118, 119, 120, 121, 122]

/-- Base58 digits of a natural number, least significant first (the order
`base58.Encode` produces them in before its final reversal). -/
def b58DigitsRev : Nat → Nat → List Nat
  | 0, _ => []
  | fuel + 1, n =>
    if n = 0 then [] else b58Alphabet.getD (n % 58) 0 :: b58DigitsRev fuel (n / 58)

/-- Number of leading zero bytes, each of which `base58.Encode` renders as an
extra leading `1` character. -/
def leadingZeroCount : List Nat → Nat
  | [] => 0
  | b :: t => if b = 0 then leadingZeroCount t + 1 else 0

/-- The `base58.Encode` of a byte list, as ASCII codes: one `1` per leading
zero byte, then the base58 digits of the big-endian value, most significant
first. -/
def base58Encode (bs : List Nat) : List Nat :=
  List.replicate (leadingZeroCount bs) 49 ++ (b58DigitsRev 64 (bytesToNat bs)).reverse

/-- Value of one base58 ASCII character: its index in the alphabet, or 255
for a character outside the alphabet (the sentinel `base58.Decode` uses). -/
def b58CharVal (c : Nat) : Nat :=
  (b58Alphabet.indexOf c) % 256 + (if c ∈ b58Alphabet then 0 else 197)

/-- The `base58.Decode` of an ASCII string: fails to the empty list on any
character outside the alphabet, otherwise one zero byte per leading `1`
character followed by the minimal big-endian bytes of the base58 value. -/
def base58Decode (s : List Nat) : List Nat :=
  if s.all fun c => c ∈ b58Alphabet then
    List.replicate (leadingZeroCount (s.map fun c => c - 48)) 0 ++
      natBytes (s.foldl (fun acc c => acc * 58 + b58CharVal c) 0)
  else []

/-! ## The address encoder (`PrivateKeyToTronAddress`)

The Go function, line by line: interpret the key bytes as a big-endian
scalar `d`, compute `d · G` on P-256, serialise the uncompressed point as
`0x04 ‖ X.Bytes() ‖ Y.Bytes()`, hash the serialisation minus its first byte
with Keccak-256, prefix `0x41` to the last 20 hash bytes, append the first
4 bytes of a second Keccak-256 as checksum, and base58-encode.  The function
has no failure path: it always returns `(address, nil)`. -/

/-- Error type of the wallet core.  `PrivateKeyToTronAddress` never actually
produces one; the BIP32 layer produces `derivationError` (the library's
`ErrInvalidPrivateKey`). -/
inductive WalletError
  | derivationError
  | hardenedPublicKeyError
deriving DecidableEq, Repr

/-- The uncompressed public-key encoding `0x04 ‖ X.Bytes() ‖ Y.Bytes()` the
Go code builds (`append([]byte{0x04}, append(X.Bytes(), Y.Bytes()...)...)`).
`natBytes` is minimal, so the two coordinate fields are 32 bytes each only
when both coordinate values are at least `2 ^ 248`. -/
def pubKeyBytes (privateKey : List Nat) : List Nat :=
  let xy := scalarBaseMult256 (bytesToNat privateKey)
  4 :: (natBytes xy.1 ++ natBytes xy.2)

/-- The Keccak-256 pre-image for the address payload: the public-key
encoding with its leading `0x04` dropped (`pubKey[1:]`). -/
def keccakPreimage (privateKey : List Nat) : List Nat :=
  (pubKeyBytes privateKey).drop 1

/-- The 21-byte raw payload: version byte `0x41` then the last 20 bytes of
the Keccak-256 of the pre-image. -/
def tronAddressBytes (privateKey : List Nat) : List Nat :=
  65 :: (keccak256 (keccakPreimage privateKey)).drop 12

/-- The 4-byte checksum: the first 4 bytes of a single Keccak-256 pass over
the 21-byte payload. -/
def tronChecksum (privateKey : List Nat) : List Nat :=
  (keccak256 (tronAddressBytes privateKey)).take 4

/-- The 25-byte raw address `payload ‖ checksum`. -/
def tronRaw (privateKey : List Nat) : List Nat :=
  tronAddressBytes privateKey ++ tronChecksum privateKey

/-- The model of `PrivateKeyToTronAddress`: the base58 rendering of the raw
address, paired with the error result, which is always `none` — the Go
function ends in `return base58.Encode(fullAddress), nil` and has no other
return of a non-nil error. -/
def PrivateKeyToTronAddress (privateKey : List Nat) : List Nat × Option WalletError :=
  (base58Encode (tronRaw privateKey), none)

/-! ## SHA-512, HMAC-SHA512, PBKDF2 (`crypto/sha512`, `crypto/hmac`,
`golang.org/x/crypto/pbkdf2`)

SHA-512 words are `Nat` values below `2 ^ 64`; one compression processes a
16-word block with a fused message-schedule/round loop. -/

/-- Right rotation of a 64-bit word. -/
def rotr64 (n x : Nat) : Nat :=
  ((x >>> n) ||| (x <<< (64 - n))) % 18446744073709551616

/-- The big sigma-0 function of SHA-512. -/
def bsig0 (x : Nat) : Nat := rotr64 28 x ^^^ rotr64 34 x ^^^ rotr64 39 x

/-- The big sigma-1 function of SHA-512. -/
def bsig1 (x : Nat) : Nat := rotr64 14 x ^^^ rotr64 18 x ^^^ rotr64 41 x

/-- The small sigma-0 function of SHA-512. -/
def ssig0 (x : Nat) : Nat := rotr64 1 x ^^^ rotr64 8 x ^^^ (x >>> 7)

/-- The small sigma-1 function of SHA-512. -/
def ssig1 (x : Nat) : Nat := rotr64 19 x ^^^ rotr64 61 x ^^^ (x >>> 6)

/-- The choice function of SHA-2. -/
def chF (e f g : Nat) : Nat := (e &&& f) ^^^ ((18446744073709551615 - e) &&& g)

/-- The majority function of SHA-2. -/
def majF (a b c : Nat) : Nat := (a &&& b) ^^^ (a &&& c) ^^^ (b &&& c)

/-- The round constants of SHA-512. -/
def K512 : List Nat := [4794697086780616226, 8158064640168781261, 13096744586834688815, 16840607885511220156, 4131703408338449720, 6480981068601479193, 10538285296894168987, 12329834152419229976, 15566598209576043074, 1334009975649890238, 2608012711638119052, 6128411473006802146, 8268148722764581231, 9286055187155687089, 11230858885718282805, 13951009754708518548, 16472876342353939154, 17275323862435702243, 1135362057144423861, 2597628984639134821, 3308224258029322869, 5365058923640841347, 6679025012923562964, 8573033837759648693, 10970295158949994411, 12119686244451234320, 12683024718118986047, 13788192230050041572, 14330467153632333762, 15395433587784984357, 489312712824947311, 1452737877330783856, 2861767655752347644, 3322285676063803686, 5560940570517711597, 5996557281743188959, 7280758554555802590, 8532644243296465576, 9350256976987008742, 10552545826968843579, 11727347734174303076, 12113106623233404929, 14000437183269869457, 14369950271660146224, 15101387698204529176, 15463397548674623760, 17586052441742319658, 1182934255886127544, 1847814050463011016, 2177327727835720531, 2830643537854262169, 3796741975233480872, 4115178125766777443, 5681478168544905931, 6601373596472566643, 7507060721942968483, 8399075790359081724, 8693463985226723168, 9568029438360202098, 10144078919501101548, 10430055236837252648, 11840083180663258601, 13761210420658862357, 14299343276471374635, 14566680578165727644, 15097957966210449927, 16922976911328602910, 17689382322260857208, 500013540394364858, 748580250866718886, 1242879168328830382, 1977374033974150939, 2944078676154940804, 3659926193048069267, 4368137639120453308, 4836135668995329356, 5532061633213252278, 6448918945643986474, 6902733635092675308, 7801388544844847127]

/-- The initial state of SHA-512. -/
def IV512 : List Nat := [7640891576956012808, 13503953896175478587, 4354685564936845355, 11912009170470909681, 5840696475078001361, 11170449401992604703, 2270897969802886507, 6620516959819538809]

/-- The fused message schedule and round loop of one SHA-512 compression:
one iteration per remaining round constant, carrying the 16-word schedule
window and the 8-word working state. -/
def sha512Loop : List Nat →
    Nat → Nat → Nat → Nat → Nat → Nat → Nat → Nat → Nat → Nat → Nat → Nat → Nat → Nat → Nat → Nat →
    Nat → Nat → Nat → Nat → Nat → Nat → Nat → Nat → List Nat
  | [], _, _, _, _, _, _, _, _, _, _, _, _, _, _, _, _, a, b, c, d, e, f, g, h =>
      [a, b, c, d, e, f, g, h]
  | k :: ks, w0, w1, w2, w3, w4, w5, w6, w7, w8, w9, w10, w11, w12, w13, w14, w15,
      a, b, c, d, e, f, g, h =>
    let t1 := (h + bsig1 e + chF e f g + k + w0) % 18446744073709551616
    let t2 := (bsig0 a + majF a b c) % 18446744073709551616
    let w16 := (ssig1 w14 + w9 + ssig0 w1 + w0) % 18446744073709551616
    sha512Loop ks w1 w2 w3 w4 w5 w6 w7 w8 w9 w10 w11 w12 w13 w14 w15 w16
      ((t1 + t2) % 18446744073709551616) a b c ((d + t1) % 18446744073709551616) e f g

/-- One SHA-512 compression of a 16-word block into an 8-word state. -/
def compress512 (st : List Nat) (blk : List Nat) : List Nat :=
  match st, blk with
  | [a, b, c, d, e, f, g, h],
    [w0, w1, w2, w3, w4, w5, w6, w7, w8, w9, w10, w11, w12, w13, w14, w15] =>
    match sha512Loop K512 w0 w1 w2 w3 w4 w5 w6 w7 w8 w9 w10 w11 w12 w13 w14 w15
        a b c d e f g h with
    | [a2, b2, c2, d2, e2, f2, g2, h2] =>
      [(a + a2) % 18446744073709551616, (b + b2) % 18446744073709551616,
       (c + c2) % 18446744073709551616, (d + d2) % 18446744073709551616,
       (e + e2) % 18446744073709551616, (f + f2) % 18446744073709551616,
       (g + g2) % 18446744073709551616, (h + h2) % 18446744073709551616]
    | _ => st
  | _, _ => st

/-- A 64-bit word from eight big-endian bytes. -/
def word64OfBytes (bs : List Nat) : Nat :=
  bs.foldl (fun acc b => acc * 256 + b) 0

/-- Eight big-endian bytes of a 64-bit word. -/
def word64Bytes (w : Nat) : List Nat :=
  [(w >>> 56) &&& 255, (w >>> 48) &&& 255, (w >>> 40) &&& 255, (w >>> 32) &&& 255,
   (w >>> 24) &&& 255, (w >>> 16) &&& 255, (w >>> 8) &&& 255, w &&& 255]

/-- The SHA-512 padding: `0x80`, zero fill to 112 mod 128, and the bit
length as a 16-byte big-endian field. -/
def sha512Pad (msg : List Nat) : List Nat :=
  let padLen := (128 - (msg.length + 17) % 128) % 128
  msg ++ 128 :: List.replicate padLen 0 ++
    padLeft 16 (natBytes (msg.length * 8))

/-- SHA-512 digest (64 bytes) of a byte list. -/
def sha512Bytes (msg : List Nat) : List Nat :=
  let blocks := ((sha512Pad msg).toChunks 128).map fun blk =>
    (blk.toChunks 8).map word64OfBytes
  (blocks.foldl compress512 IV512).foldr (fun w acc => word64Bytes w ++ acc) []

/-- HMAC-SHA512 (`hmac.New(sha512.New, key)`): hash oversized keys, zero-pad
to the 128-byte block, and apply the nested `opad`/`ipad` construction. -/
def hmacSHA512 (key msg : List Nat) : List Nat :=
  let k0 := if 128 < key.length then sha512Bytes key else key
  let kp := k0 ++ List.replicate (128 - k0.length) 0
  sha512Bytes ((kp.map fun b => b ^^^ 92) ++
    sha512Bytes ((kp.map fun b => b ^^^ 54) ++ msg))

/-- The accumulation loop of PBKDF2: each step rehashes the previous `U`
value and xors it into the accumulator. -/
def pbkdf2Loop (pass : List Nat) : Nat → List Nat → List Nat → List Nat
  | 0, acc, _ => acc
  | n + 1, acc, u =>
    let u2 := hmacSHA512 pass u
    pbkdf2Loop pass n (List.zipWith (fun a b => a ^^^ b) acc u2) u2

/-- PBKDF2-HMAC-SHA512 with 2048 iterations and a 64-byte output
(`pbkdf2.Key(password, salt, 2048, 64, sha512.New)`): the output length
equals the hash length, so exactly one output block `T1` is produced. -/
def pbkdf2sha512 (pass salt : List Nat) : List Nat :=
  let u1 := hmacSHA512 pass (salt ++ [0, 0, 0, 1])
  pbkdf2Loop pass 2047 u1 u1

/-- The BIP39 seed (`bip39.NewSeed(mnemonic, "")`): PBKDF2 over the mnemonic
bytes, salted with the literal `"mnemonic"` (the empty passphrase appends
nothing), with no word-list or checksum validation of any kind — the
function is total over all byte strings. -/
def bip39Seed (mnemonic : List Nat) : List Nat :=
  pbkdf2sha512 mnemonic [109, 110, 101, 109, 111, 110, 105, 99]

/-! ## The BIP32 key tree (`tyler-smith/go-bip32`)

An extended key is a 32-byte private key with a 32-byte chain code.  The
layer is parameterised over the HMAC-SHA512 primitive `hm` (and the entry
point additionally over the seed-derivation function `sf`), mirroring the
component boundary of the specification; `DeriveTronAddressFromMnemonic`
instantiates both with the concrete primitives. -/

/-- An extended private key of the BIP32 tree. -/
structure ExtKey where
  key : List Nat
  chainCode : List Nat
deriving DecidableEq, Repr

/-- The scalar multiple of the secp256k1 base point as affine coordinate
values ((0, 0) for the identity), as computed by `btcec.S256()`. -/
def scalarBaseMultK (d : Nat) : Nat × Nat :=
  match ecSmul (0 : ZMod pK) 256 (d % nK) (some (gxK, gyK)) with
  | none => (0, 0)
  | some (x, y) => (x.val, y.val)

/-- The compressed 33-byte secp256k1 public key of a private key:
parity prefix `0x02`/`0x03`, then the `x`-coordinate left-padded to
32 bytes (`publicKeyForPrivateKey`/`compressPublicKey` in the BIP32
library). -/
def compressedPubKey (d : List Nat) : List Nat :=
  let xy := scalarBaseMultK (bytesToNat d)
  (2 + xy.2 % 2) :: padLeft 32 (natBytes xy.1)

/-- Validity of a derived 32-byte scalar: invalid when zero or at least the
secp256k1 group order (the library's `validatePrivateKey`, whose failure is
`ErrInvalidPrivateKey` — the specification's `DerivationError`). -/
def validScalar (il : List Nat) : Bool :=
  decide (bytesToNat il ≠ 0 ∧ bytesToNat il < nK)

/-- The master key (`bip32.NewMasterKey`): HMAC-SHA512 with key literal
`"Bitcoin seed"` over the seed; left half the private key (validated),
right half the chain code. -/
def newMasterKey (hm : List Nat → List Nat → List Nat) (seed : List Nat) :
    Except WalletError ExtKey :=
  let i := hm [66, 105, 116, 99, 111, 105, 110, 32, 115, 101, 101, 100] seed
  if validScalar (i.take 32) then .ok ⟨i.take 32, i.drop 32⟩
  else .error .derivationError

/-- A child key (`bip32.Key.NewChildKey` on a private parent): hardened
indices (at least `2 ^ 31`) hash `0x00 ‖ parentKey ‖ ser32 index`,
non-hardened indices hash `compressedPubKey ‖ ser32 index`, both keyed by
the parent chain code; the left half is validated and added to the parent
key modulo the secp256k1 group order, left-padded back to 32 bytes. -/
def newChildKey (hm : List Nat → List Nat → List Nat) (k : ExtKey) (idx : Nat) :
    Except WalletError ExtKey :=
  let data := (if 2147483648 ≤ idx then 0 :: k.key else compressedPubKey k.key) ++ ser32 idx
  let i := hm k.chainCode data
  if validScalar (i.take 32) then
    .ok ⟨padLeft 32 (natBytes ((bytesToNat (i.take 32) + bytesToNat k.key) % nK)), i.drop 32⟩
  else .error .derivationError

deriving instance DecidableEq for Except

/-- The outcome of running a Go function that may dereference a nil
pointer: either a runtime panic, or a returned value. -/
inductive Outcome (α : Type)
  | panics
  | ok (a : α)
deriving DecidableEq, Repr

/-- One `purpose, _ := recv.NewChildKey(idx)`-style step of the Go code: the
error result is discarded, so a failed derivation leaves a nil key; invoking
a further step on a nil receiver dereferences it and panics. -/
def stepDiscardingError (hm : List Nat → List Nat → List Nat)
    (recv : Option ExtKey) (idx : Nat) : Outcome (Option ExtKey) :=
  match recv with
  | none => .panics
  | some k =>
    .ok (match newChildKey hm k idx with
      | .ok c => some c
      | .error _ => none)

/-- The model of `DeriveTronAddressFromMnemonic`, parameterised over the
seed-derivation function `sf` and the HMAC-SHA512 primitive `hm`, with the
exact control flow of the Go function: the master-key error is checked and
returned; the errors of the purpose, coin-type, account and change steps
are discarded with `_`; the wallet-key error is checked and returned; the
result is the pair (address, lowercase hex of the wallet private key). -/
def DeriveCore (sf : List Nat → List Nat) (hm : List Nat → List Nat → List Nat)
    (mnemonic : List Nat) (index : Nat) :
    Outcome (Except WalletError (List Nat × List Nat)) :=
  match newMasterKey hm (sf mnemonic) with
  | .error e => .ok (.error e)
  | .ok master =>
    match stepDiscardingError hm (some master) (2147483648 + 44) with
    | .panics => .panics
    | .ok purpose =>
      match stepDiscardingError hm purpose (2147483648 + 195) with
      | .panics => .panics
      | .ok coinType =>
        match stepDiscardingError hm coinType (2147483648 + 0) with
        | .panics => .panics
        | .ok account =>
          match stepDiscardingError hm account 0 with
          | .panics => .panics
          | .ok change =>
            match change with
            | none => .panics
            | some ch =>
              match newChildKey hm ch (index % 4294967296) with
              | .error e => .ok (.error e)
              | .ok walletKey =>
                match PrivateKeyToTronAddress walletKey.key with
                | (_, some e) => .ok (.error e)
                | (addr, none) => .ok (.ok (addr, hexEncode walletKey.key))

/-- The concrete `DeriveTronAddressFromMnemonic`: the parametric core
instantiated with the real BIP39 seed derivation and HMAC-SHA512. -/
def DeriveTronAddressFromMnemonic (mnemonic : List Nat) (index : Nat) :
    Outcome (Except WalletError (List Nat × List Nat)) :=
  DeriveCore bip39Seed hmacSHA512 mnemonic index

/-! ## Specification-side derivation-path definitions

These two walks are written from the specification's words, to be compared
with the behaviour of `DeriveCore`.  `childHardened` is the specification's
"hardened child derivation (child index offset by 2 ^ 31)" and
`childNonHardened` its "non-hardened derivation". -/

/-- A hardened child derivation step as the specification describes it: the
HMAC input is `0x00 ‖ parentKey ‖ ser32 (i + 2 ^ 31)`. -/
def childHardened (hm : List Nat → List Nat → List Nat) (k : ExtKey) (i : Nat) :
    Except WalletError ExtKey :=
  let i2 := hm k.chainCode (0 :: k.key ++ ser32 (2147483648 + i))
  if validScalar (i2.take 32) then
    .ok ⟨padLeft 32 (natBytes ((bytesToNat (i2.take 32) + bytesToNat k.key) % nK)), i2.drop 32⟩
  else .error .derivationError

/-- A non-hardened child derivation step as the specification describes it:
the HMAC input is `serializeCompressedPublicKey(parent) ‖ ser32 i`. -/
def childNonHardened (hm : List Nat → List Nat → List Nat) (k : ExtKey) (i : Nat) :
    Except WalletError ExtKey :=
  let i2 := hm k.chainCode (compressedPubKey k.key ++ ser32 i)
  if validScalar (i2.take 32) then
    .ok ⟨padLeft 32 (natBytes ((bytesToNat (i2.take 32) + bytesToNat k.key) % nK)), i2.drop 32⟩
  else .error .derivationError

/-- The walk of the path `m/44'/195'/0'/0/index` exactly as claim C7 states
it: three hardened steps for the segments 44, 195 and 0, a non-hardened
change-0 step, and a non-hardened step with the caller-supplied index. -/
def specWalk (hm : List Nat → List Nat → List Nat) (seed : List Nat) (index : Nat) :
    Except WalletError ExtKey := do
  let m ← newMasterKey hm seed
  let k1 ← childHardened hm m 44
  let k2 ← childHardened hm k1 195
  let k3 ← childHardened hm k2 0
  let k4 ← childNonHardened hm k3 0
  childNonHardened hm k4 index

/-- The walk the code actually performs when every step succeeds: the same
first four steps, and a final step that is non-hardened for indices below
`2 ^ 31` but hardened (with the raw index) for indices of at least `2 ^ 31`,
because `NewChildKey` treats every index of at least `2 ^ 31` as hardened. -/
def codeWalk (hm : List Nat → List Nat → List Nat) (seed : List Nat) (index : Nat) :
    Except WalletError ExtKey := do
  let m ← newMasterKey hm seed
  let k1 ← childHardened hm m 44
  let k2 ← childHardened hm k1 195
  let k3 ← childHardened hm k2 0
  let k4 ← childNonHardened hm k3 0
  if index % 4294967296 < 2147483648 then childNonHardened hm k4 (index % 4294967296)
  else newChildKey hm k4 (index % 4294967296)

/-! ## Concrete small test oracles

Transparent instantiations of the seed and HMAC parameters, used to witness
and refute the structural claims about the derivation control flow at
feasible proof-checking cost.  They satisfy the one property the layer
relies on (a 64-byte result) while keeping all derived scalars small. -/

/-- A transparent seed function: every mnemonic maps to 64 bytes of `0x01`. -/
def sfCheap : List Nat → List Nat :=
  fun _ => List.replicate 64 1

/-- A transparent HMAC substitute whose left half encodes
`1 + (first data byte)` — a small valid scalar for every input. -/
def hmCheap : List Nat → List Nat → List Nat :=
  fun _ data => padLeft 32 (natBytes (1 + data.headD 0)) ++ List.replicate 32 2

/-- A transparent HMAC substitute that produces an invalid scalar (64 bytes
of `0xFF`, at least the group order) exactly on hardened child data (first
byte `0x00`), and behaves like `hmCheap` otherwise: with it, the first
hardened step of the path fails. -/
def hmFailHardened : List Nat → List Nat → List Nat :=
  fun _ data =>
    if data.headD 0 = 0 then List.replicate 64 255
    else padLeft 32 (natBytes (1 + data.headD 0)) ++ List.replicate 32 2

/-- A transparent HMAC substitute that produces an invalid scalar exactly on
non-hardened child data (leading byte `0x02`/`0x03`) whose final index byte
is `7`: with it, precisely the fifth (wallet-index) step of a derivation
with index 7 fails. -/
def hmFailIndex7 : List Nat → List Nat → List Nat :=
  fun _ data =>
    if (2 ≤ data.headD 0 ∧ data.headD 0 ≤ 3) ∧ data.getLastD 0 = 7 then
      List.replicate 64 255
    else padLeft 32 (natBytes (1 + data.headD 0)) ++ List.replicate 32 2

/-! ## Arithmetic facts about the byte-level utilities -/

theorem foldlHorner (t : List Nat) (acc : Nat) :
    t.foldl (fun a c => a * 256 + c) acc =
      acc * 256 ^ t.length + t.foldl (fun a c => a * 256 + c) 0 := by
  induction t generalizing acc with
  | nil => simp
  | cons b t ih =>
    simp only [List.foldl_cons, List.length_cons]
    rw [ih (acc * 256 + b), ih (0 * 256 + b)]
    ring

theorem bytesToNat_cons (b : Nat) (t : List Nat) :
    bytesToNat (b :: t) = b * 256 ^ t.length + bytesToNat t := by
  simp only [bytesToNat, List.foldl_cons]
  simpa using foldlHorner t b

theorem ofBytesLE_append_single (l : List Nat) (b : Nat) :
    ofBytesLE (l ++ [b]) = ofBytesLE l + b * 256 ^ l.length := by
  induction l with
  | nil => simp [ofBytesLE]
  | cons c t ih =>
    simp only [List.cons_append, List.append_eq, ofBytesLE, List.length_cons]
    rw [ih]
    ring

theorem bytesToNat_eq_ofBytesLE (bs : List Nat) :
    bytesToNat bs = ofBytesLE bs.reverse := by
  induction bs with
  | nil => rfl
  | cons b t ih =>
    rw [bytesToNat_cons, List.reverse_cons, ofBytesLE_append_single, ih,
      List.length_reverse]
    ring

theorem ofBytesLE_lt (l : List Nat) (h : ∀ b ∈ l, b < 256) :
    ofBytesLE l < 256 ^ l.length := by
  induction l with
  | nil => simp [ofBytesLE]
  | cons b t ih =>
    have hb : b < 256 := h b (List.mem_cons_self b t)
    have ht := ih fun x hx => h x (List.mem_cons_of_mem b hx)
    simp only [ofBytesLE, List.length_cons, pow_succ]
    calc b + 256 * ofBytesLE t < 256 + 256 * ofBytesLE t := by omega
    _ = 256 * (ofBytesLE t + 1) := by ring
    _ ≤ 256 * 256 ^ t.length := Nat.mul_le_mul_left 256 ht
    _ = 256 ^ t.length * 256 := by ring

theorem bytesToNat_lt (bs : List Nat) (h : ∀ b ∈ bs, b < 256) :
    bytesToNat bs < 256 ^ bs.length := by
  rw [bytesToNat_eq_ofBytesLE, ← List.length_reverse]
  exact ofBytesLE_lt bs.reverse fun b hb => h b (List.mem_reverse.mp hb)

theorem bytesToNat_cons_le (b : Nat) (t : List Nat) :
    b * 256 ^ t.length ≤ bytesToNat (b :: t) := by
  rw [bytesToNat_cons]; omega

theorem ofBytesLE_ne_zero (l : List Nat) (hne : l ≠ []) (h : l.getLast? ≠ some 0) :
    ofBytesLE l ≠ 0 := by
  induction l with
  | nil => exact absurd rfl hne
  | cons b t ih =>
    cases t with
    | nil =>
      have hb : b ≠ 0 := by simpa using h
      simp only [ofBytesLE]
      omega
    | cons c u =>
      have h2 := ih (List.cons_ne_nil c u) (by rwa [List.getLast?_cons_cons] at h)
      have h3 : ofBytesLE (b :: c :: u) = b + 256 * ofBytesLE (c :: u) := rfl
      omega

theorem natBytesRev_zero (fuel : Nat) : natBytesRev fuel 0 = [] := by
  cases fuel with
  | zero => rfl
  | succ f => simp [natBytesRev]

theorem natBytesRev_ofBytesLE (l : List Nat) :
    ∀ fuel, (∀ b ∈ l, b < 256) → l.getLast? ≠ some 0 → l.length ≤ fuel →
      natBytesRev fuel (ofBytesLE l) = l := by
  induction l with
  | nil => intro fuel _ _ _; simpa [ofBytesLE] using natBytesRev_zero fuel
  | cons b t ih =>
    intro fuel hb hl hf
    cases fuel with
    | zero => simp at hf
    | succ f =>
      have hb0 : b < 256 := hb b (List.mem_cons_self b t)
      have hval : ofBytesLE (b :: t) = b + 256 * ofBytesLE t := rfl
      have hmod : (b + 256 * ofBytesLE t) % 256 = b := by
        rw [Nat.add_mul_mod_self_left]; exact Nat.mod_eq_of_lt hb0
      have hdiv : (b + 256 * ofBytesLE t) / 256 = ofBytesLE t := by
        rw [Nat.add_mul_div_left _ _ (by norm_num : (0:Nat) < 256),
          Nat.div_eq_of_lt hb0, Nat.zero_add]
      have hne : b + 256 * ofBytesLE t ≠ 0 := by
        cases t with
        | nil =>
          have hb1 : b ≠ 0 := by simpa using hl
          simp only [ofBytesLE]
          omega
        | cons c u =>
          have h2 := ofBytesLE_ne_zero (c :: u) (List.cons_ne_nil c u)
            (by rwa [List.getLast?_cons_cons] at hl)
          omega
      rw [hval]
      simp only [natBytesRev, if_neg hne, hmod, hdiv]
      cases t with
      | nil => simpa using natBytesRev_zero f
      | cons c u =>
        have hf2 : (c :: u).length ≤ f := by simpa using hf
        have hl2 : (c :: u).getLast? ≠ some 0 := by
          rwa [List.getLast?_cons_cons] at hl
        have hb2 : ∀ x ∈ c :: u, x < 256 := fun x hx => hb x (List.mem_cons_of_mem b hx)
        rw [ih f hb2 hl2 hf2]

theorem natBytes_bytesToNat (bs : List Nat) (hb : ∀ b ∈ bs, b < 256)
    (hh : bs.head? ≠ some 0) (hlen : bs.length ≤ 40) :
    natBytes (bytesToNat bs) = bs := by
  rw [natBytes, bytesToNat_eq_ofBytesLE,
    natBytesRev_ofBytesLE bs.reverse 40
      (fun b h => hb b (List.mem_reverse.mp h))
      (by rwa [List.getLast?_reverse])
      (by simpa using hlen),
    List.reverse_reverse]

theorem hexDigitVal_hexDigit : ∀ b < 16, hexDigitVal (hexDigit b) = some b := by
  decide

theorem hexDecode_hexEncode (bs : List Nat) (h : ∀ b ∈ bs, b < 256) :
    hexDecode (hexEncode bs) = some bs := by
  induction bs with
  | nil => rfl
  | cons b t ih =>
    have hb : b < 256 := h b (List.mem_cons_self b t)
    have h1 : b / 16 < 16 := by omega
    have h2 : b % 16 < 16 := Nat.mod_lt b (by norm_num)
    have henc : hexEncode (b :: t) = hexDigit (b / 16) :: hexDigit (b % 16) :: hexEncode t := rfl
    rw [henc]
    simp only [hexDecode, hexDigitVal_hexDigit (b / 16) h1, hexDigitVal_hexDigit (b % 16) h2,
      ih fun x hx => h x (List.mem_cons_of_mem b hx)]
    have hdm : b / 16 * 16 + b % 16 = b := Nat.div_add_mod' b 16
    rw [hdm]

theorem natBytesRev_mem_lt (fuel : Nat) :
    ∀ n, ∀ b ∈ natBytesRev fuel n, b < 256 := by
  induction fuel with
  | zero => intro n b hb; simp [natBytesRev] at hb
  | succ f ih =>
    intro n b hb
    by_cases hn : n = 0
    · simp [natBytesRev, hn] at hb
    · simp only [natBytesRev, if_neg hn, List.mem_cons] at hb
      rcases hb with h | h
      · omega
      · exact ih (n / 256) b h

theorem natBytes_mem_lt (n : Nat) : ∀ b ∈ natBytes n, b < 256 := by
  intro b hb
  exact natBytesRev_mem_lt 40 n b (List.mem_reverse.mp hb)

theorem padLeft_mem_lt (w : Nat) (bs : List Nat) (h : ∀ b ∈ bs, b < 256) :
    ∀ b ∈ padLeft w bs, b < 256 := by
  intro b hb
  rcases List.mem_append.mp hb with h1 | h1
  · have := List.eq_of_mem_replicate h1
    omega
  · exact h b h1

/-- Length of the fuel-bounded digit expansion when the number of base-256
digits is known: `256 ^ L ≤ n < 256 ^ (L + 1)` gives exactly `L + 1`
digits. -/
theorem natBytesRev_length (L : Nat) :
    ∀ fuel n, 256 ^ L ≤ n → n < 256 ^ (L + 1) → L + 1 ≤ fuel →
      (natBytesRev fuel n).length = L + 1 := by
  induction L with
  | zero =>
    intro fuel n h1 h2 hf
    cases fuel with
    | zero => omega
    | succ f =>
      have hn : n ≠ 0 := by
        have h0 : (0:Nat) < 256 ^ 0 := by norm_num
        omega
      have hd : n / 256 = 0 := Nat.div_eq_of_lt (by simpa using h2)
      simp [natBytesRev, if_neg hn, hd, natBytesRev_zero]
  | succ L ih =>
    intro fuel n h1 h2 hf
    cases fuel with
    | zero => omega
    | succ f =>
      have hn : n ≠ 0 := by
        have : 0 < 256 ^ (L + 1) := Nat.pos_pow_of_pos _ (by norm_num)
        omega
      have hdl : 256 ^ L ≤ n / 256 := by
        rw [Nat.le_div_iff_mul_le (by norm_num : (0:Nat) < 256)]
        calc 256 ^ L * 256 = 256 ^ (L + 1) := by rw [pow_succ]
        _ ≤ n := h1
      have hdu : n / 256 < 256 ^ (L + 1) := by
        rw [Nat.div_lt_iff_lt_mul (by norm_num : (0:Nat) < 256)]
        calc n < 256 ^ (L + 1 + 1) := h2
        _ = 256 ^ (L + 1) * 256 := by rw [pow_succ]
      simp only [natBytesRev, if_neg hn, List.length_cons]
      rw [ih f (n / 256) hdl hdu (by omega)]

/-! ## Shape of the Keccak digest and the raw address -/

theorem laneBytes_length (w : Nat) : (laneBytes w).length = 8 := rfl

theorem keccak256_length (msg : List Nat) : (keccak256 msg).length = 32 := by
  simp [keccak256, laneBytes]

theorem laneBytes_mem_lt (w : Nat) : ∀ b ∈ laneBytes w, b < 256 := by
  intro b hb
  simp only [laneBytes, List.mem_cons, List.not_mem_nil, or_false] at hb
  rcases hb with rfl | rfl | rfl | rfl | rfl | rfl | rfl | rfl <;>
    exact Nat.lt_succ_of_le Nat.and_le_right

theorem keccak256_mem_lt (msg : List Nat) : ∀ b ∈ keccak256 msg, b < 256 := by
  intro b hb
  simp only [keccak256, List.mem_append] at hb
  rcases hb with ((h | h) | h) | h <;> exact laneBytes_mem_lt _ b h

/-- The tail of the raw address after its version byte. -/
def tronTail (privateKey : List Nat) : List Nat :=
  (keccak256 (keccakPreimage privateKey)).drop 12 ++ tronChecksum privateKey

theorem tronRaw_eq_cons (k : List Nat) : tronRaw k = 65 :: tronTail k := rfl

theorem tronTail_length (k : List Nat) : (tronTail k).length = 24 := by
  simp [tronTail, tronChecksum, keccak256_length]

theorem tronRaw_length (k : List Nat) : (tronRaw k).length = 25 := by
  rw [tronRaw_eq_cons]
  simp [tronTail_length]

theorem tronRaw_mem_lt (k : List Nat) : ∀ b ∈ tronRaw k, b < 256 := by
  intro b hb
  rw [tronRaw_eq_cons] at hb
  rcases List.mem_cons.mp hb with rfl | hb
  · norm_num
  · rcases List.mem_append.mp hb with h | h
    · exact keccak256_mem_lt _ b (List.mem_of_mem_drop h)
    · exact keccak256_mem_lt _ b (List.mem_of_mem_take h)

theorem tronRaw_value_lb (k : List Nat) : 65 * 256 ^ 24 ≤ bytesToNat (tronRaw k) := by
  rw [tronRaw_eq_cons]
  have := bytesToNat_cons_le 65 (tronTail k)
  rwa [tronTail_length] at this

theorem tronRaw_value_ub (k : List Nat) : bytesToNat (tronRaw k) < 66 * 256 ^ 24 := by
  rw [tronRaw_eq_cons, bytesToNat_cons, tronTail_length]
  have h1 : bytesToNat (tronTail k) < 256 ^ 24 := by
    have := bytesToNat_lt (tronTail k) fun b hb => by
      have hmem : b ∈ tronRaw k := by
        rw [tronRaw_eq_cons]
        exact List.mem_cons_of_mem 65 hb
      exact tronRaw_mem_lt k b hmem
    rwa [tronTail_length] at this
  omega

/-! ## Shape of the base58 rendering -/

theorem b58DigitsRev_shape (L : Nat) :
    ∀ fuel n, 58 ^ L ≤ n → n < 58 ^ (L + 1) → L + 1 ≤ fuel →
      (b58DigitsRev fuel n).length = L + 1 ∧
      (b58DigitsRev fuel n).getLast? = some (b58Alphabet.getD (n / 58 ^ L) 0) := by
  induction L with
  | zero =>
    intro fuel n h1 h2 hf
    cases fuel with
    | zero => omega
    | succ f =>
      have hn : n ≠ 0 := by
        have h0 : (1:Nat) ≤ 58 ^ 0 := by norm_num
        omega
      have hd : n / 58 = 0 := Nat.div_eq_of_lt (by simpa using h2)
      have hm : n % 58 = n := Nat.mod_eq_of_lt (by simpa using h2)
      simp [b58DigitsRev, if_neg hn, hd, hm]
      cases f <;> simp [b58DigitsRev]
  | succ L ih =>
    intro fuel n h1 h2 hf
    cases fuel with
    | zero => omega
    | succ f =>
      have hn : n ≠ 0 := by
        have : (0:Nat) < 58 ^ (L + 1) := Nat.pos_pow_of_pos _ (by norm_num)
        omega
      have hdl : 58 ^ L ≤ n / 58 := by
        rw [Nat.le_div_iff_mul_le (by norm_num : (0:Nat) < 58)]
        calc 58 ^ L * 58 = 58 ^ (L + 1) := by rw [pow_succ]
        _ ≤ n := h1
      have hdu : n / 58 < 58 ^ (L + 1) := by
        rw [Nat.div_lt_iff_lt_mul (by norm_num : (0:Nat) < 58)]
        calc n < 58 ^ (L + 1 + 1) := h2
        _ = 58 ^ (L + 1) * 58 := by rw [pow_succ]
      obtain ⟨ihl, ihg⟩ := ih f (n / 58) hdl hdu (by omega)
      have hne : b58DigitsRev f (n / 58) ≠ [] := by
        intro hcon
        rw [hcon] at ihl
        simp at ihl
      constructor
      · simp only [b58DigitsRev, if_neg hn, List.length_cons, ihl]
      · have hstep : (b58DigitsRev (f + 1) n) =
            b58Alphabet.getD (n % 58) 0 :: b58DigitsRev f (n / 58) := by
          simp [b58DigitsRev, if_neg hn]
        rw [hstep]
        cases hD : b58DigitsRev f (n / 58) with
        | nil => exact absurd hD hne
        | cons x xs =>
          have hpp : (58:Nat) * 58 ^ L = 58 ^ (L + 1) := by
            rw [pow_succ]; ring
          rw [List.getLast?_cons_cons, ← hD, ihg, Nat.div_div_eq_div_mul, hpp]

theorem b58DigitsRev_mem (fuel : Nat) :
    ∀ n, ∀ c ∈ b58DigitsRev fuel n, c ∈ b58Alphabet := by
  have hgd : ∀ i < 58, b58Alphabet.getD i 0 ∈ b58Alphabet := by decide
  induction fuel with
  | zero => intro n c hc; simp [b58DigitsRev] at hc
  | succ f ih =>
    intro n c hc
    by_cases hn : n = 0
    · simp [b58DigitsRev, hn] at hc
    · simp only [b58DigitsRev, if_neg hn, List.mem_cons] at hc
      rcases hc with rfl | hc
      · exact hgd (n % 58) (Nat.mod_lt n (by norm_num))
      · exact ih (n / 58) c hc

theorem b58CharVal_getD : ∀ d < 58, b58CharVal (b58Alphabet.getD d 0) = d := by
  decide

theorem foldl58_digitsRev (fuel : Nat) :
    ∀ n acc, n < 58 ^ fuel →
      ((b58DigitsRev fuel n).reverse).foldl (fun a c => a * 58 + b58CharVal c) acc =
        acc * 58 ^ (b58DigitsRev fuel n).length + n := by
  induction fuel with
  | zero =>
    intro n acc h
    interval_cases n
    simp [b58DigitsRev]
  | succ f ih =>
    intro n acc h
    by_cases hn : n = 0
    · simp [b58DigitsRev, hn]
    · have hstep : (b58DigitsRev (f + 1) n) =
          b58Alphabet.getD (n % 58) 0 :: b58DigitsRev f (n / 58) := by
        simp [b58DigitsRev, if_neg hn]
      have hdf : n / 58 < 58 ^ f := by
        rw [Nat.div_lt_iff_lt_mul (by norm_num : (0:Nat) < 58)]
        calc n < 58 ^ (f + 1) := h
        _ = 58 ^ f * 58 := by rw [pow_succ]
      rw [hstep, List.reverse_cons, List.foldl_append, ih (n / 58) acc hdf]
      simp only [List.foldl_cons, List.foldl_nil, List.length_cons,
        b58CharVal_getD (n % 58) (Nat.mod_lt n (by norm_num))]
      have hdm : n / 58 * 58 + n % 58 = n := Nat.div_add_mod' n 58
      ring_nf
      omega

theorem base58Encode_tronRaw (k : List Nat) :
    base58Encode (tronRaw k) = (b58DigitsRev 64 (bytesToNat (tronRaw k))).reverse := by
  have hz : leadingZeroCount (tronRaw k) = 0 := by
    rw [tronRaw_eq_cons]
    simp [leadingZeroCount]
  rw [base58Encode, hz]
  simp

theorem tronValue_digit_interval (k : List Nat) :
    58 ^ 33 ≤ bytesToNat (tronRaw k) ∧ bytesToNat (tronRaw k) < 58 ^ 34 ∧
      26 * 58 ^ 33 ≤ bytesToNat (tronRaw k) ∧ bytesToNat (tronRaw k) < 27 * 58 ^ 33 := by
  have hlb := tronRaw_value_lb k
  have hub := tronRaw_value_ub k
  have c1 : (58:Nat) ^ 33 ≤ 65 * 256 ^ 24 := by norm_num
  have c2 : (66:Nat) * 256 ^ 24 ≤ 58 ^ 34 := by norm_num
  have c3 : (26:Nat) * 58 ^ 33 ≤ 65 * 256 ^ 24 := by norm_num
  have c4 : (66:Nat) * 256 ^ 24 ≤ 27 * 58 ^ 33 := by norm_num
  omega

theorem tronDigits_shape (k : List Nat) :
    (b58DigitsRev 64 (bytesToNat (tronRaw k))).length = 34 ∧
      (b58DigitsRev 64 (bytesToNat (tronRaw k))).getLast? = some 84 := by
  obtain ⟨h1, h2, h3, h4⟩ := tronValue_digit_interval k
  obtain ⟨hl, hg⟩ := b58DigitsRev_shape 33 64 (bytesToNat (tronRaw k)) h1 h2 (by norm_num)
  refine ⟨hl, ?_⟩
  rw [hg]
  have hdiv : bytesToNat (tronRaw k) / 58 ^ 33 = 26 := by
    apply Nat.div_eq_of_lt_le
    · exact h3
    · calc bytesToNat (tronRaw k) < 27 * 58 ^ 33 := h4
      _ = (26 + 1) * 58 ^ 33 := by ring
  rw [hdiv]
  rfl

theorem tronAddress_length (k : List Nat) :
    (PrivateKeyToTronAddress k).1.length = 34 := by
  show (base58Encode (tronRaw k)).length = 34
  rw [base58Encode_tronRaw, List.length_reverse]
  exact (tronDigits_shape k).1

theorem tronAddress_head (k : List Nat) :
    (PrivateKeyToTronAddress k).1.head? = some 84 := by
  show (base58Encode (tronRaw k)).head? = some 84
  rw [base58Encode_tronRaw, List.head?_reverse]
  exact (tronDigits_shape k).2

theorem tronAddress_chars (k : List Nat) :
    ∀ c ∈ (PrivateKeyToTronAddress k).1, c ∈ b58Alphabet := by
  intro c hc
  have : c ∈ base58Encode (tronRaw k) := hc
  rw [base58Encode_tronRaw, List.mem_reverse] at this
  exact b58DigitsRev_mem 64 _ c this

theorem base58Decode_encode_tronRaw (k : List Nat) :
    base58Decode (base58Encode (tronRaw k)) = tronRaw k := by
  have hchars := tronAddress_chars k
  have hall : ((base58Encode (tronRaw k)).all fun c => decide (c ∈ b58Alphabet)) = true := by
    rw [List.all_eq_true]
    intro c hc
    exact decide_eq_true (hchars c hc)
  have hhead : (base58Encode (tronRaw k)).head? = some 84 := tronAddress_head k
  obtain ⟨s0, hs0⟩ : ∃ t, base58Encode (tronRaw k) = 84 :: t := by
    cases hE : base58Encode (tronRaw k) with
    | nil => rw [hE] at hhead; simp at hhead
    | cons a t =>
      rw [hE] at hhead
      simp only [List.head?_cons, Option.some.injEq] at hhead
      exact ⟨t, by rw [hhead]⟩
  have hzero : leadingZeroCount ((base58Encode (tronRaw k)).map fun c => c - 48) = 0 := by
    rw [hs0]
    simp [leadingZeroCount]
  obtain ⟨h1, h2, _, _⟩ := tronValue_digit_interval k
  have hfold :
      ((base58Encode (tronRaw k)).foldl (fun acc c => acc * 58 + b58CharVal c) 0) =
        bytesToNat (tronRaw k) := by
    rw [base58Encode_tronRaw]
    have hful : bytesToNat (tronRaw k) < 58 ^ 64 := by
      calc bytesToNat (tronRaw k) < 58 ^ 34 := h2
      _ ≤ 58 ^ 64 := Nat.pow_le_pow_right (by norm_num) (by norm_num)
    rw [foldl58_digitsRev 64 (bytesToNat (tronRaw k)) 0 hful]
    simp
  rw [base58Decode, if_pos hall, hzero, hfold]
  simp only [List.replicate, List.nil_append]
  exact natBytes_bytesToNat (tronRaw k) (tronRaw_mem_lt k)
    (by rw [tronRaw_eq_cons]; simp) (by rw [tronRaw_length k]; norm_num)

theorem tronAddressBytes_length (k : List Nat) : (tronAddressBytes k).length = 21 := by
  simp [tronAddressBytes, keccak256_length]

theorem tronRaw_take_drop (k : List Nat) :
    (tronRaw k).take 21 = tronAddressBytes k ∧ (tronRaw k).drop 21 = tronChecksum k := by
  constructor
  · rw [tronRaw, ← tronAddressBytes_length k, List.take_left]
  · rw [tronRaw, ← tronAddressBytes_length k, List.drop_left]

/-! ## Claims C1, C3, C4, C8, C10 about the address encoder -/

/-- The 32-byte private key with scalar value 1, used as a concrete witness
input. -/
def keyOne : List Nat := List.replicate 31 0 ++ [1]

/-- The 32-byte private key with scalar value `n256 + 1`: a different byte
string than `keyOne` whose scalar is congruent to 1 modulo the P-256 group
order. -/
def keyOrderPlusOne : List Nat := [255, 255, 255, 255, 0, 0, 0, 0, 255, 255, 255, 255, 255, 255, 255, 255, 188, 230, 250, 173, 167, 23, 158, 132, 243, 185, 202, 194, 252, 99, 37, 82]

/-- Claim C1 (amended): `PrivateKeyToTronAddress` never fails.  For every
byte-slice key — whether or not its big-endian value is a valid scalar for
the curve — the error result is `nil` and an address (a 34-character base58
string) is returned.  There is no raises-iff behaviour: the Go function has
no failure path at all. -/
theorem claim_C1 (privateKey : List Nat) :
    (PrivateKeyToTronAddress privateKey).2 = none ∧
      (PrivateKeyToTronAddress privateKey).1.length = 34 :=
  ⟨rfl, tronAddress_length privateKey⟩

/-- Counterexample to claim C1 as stated: the all-zero 32-byte key is not a
valid scalar (its value is 0), yet `PrivateKeyToTronAddress` does not fail
with an `EncodingError` — it returns the concrete address
`TW6a53SLU4vM4QJBnK2vWVx4cqTn92MxAt` with a `nil` error. -/
theorem claim_C1_counterexample :
    PrivateKeyToTronAddress (List.replicate 32 0) =
      ([84, 87, 54, 97, 53, 51, 83, 76, 85, 52, 118, 77, 52, 81, 74, 66, 110, 75, 50,
        118, 87, 86, 120, 52, 99, 113, 84, 110, 57, 50, 77, 120, 65, 116], none) := by
  decide

/-- Claim C3 (confirmed): every produced address base58-decodes to exactly
the 25 raw bytes `payload ‖ checksum`; byte 0 is the version constant
`0x41 = 65`; and bytes 21..24 are the first 4 bytes of a single Keccak-256
pass over bytes 0..20. -/
theorem claim_C3 (privateKey : List Nat) :
    base58Decode (PrivateKeyToTronAddress privateKey).1 = tronRaw privateKey ∧
      (tronRaw privateKey).length = 25 ∧
      (tronRaw privateKey).head? = some 65 ∧
      (tronRaw privateKey).drop 21 =
        (keccak256 ((tronRaw privateKey).take 21)).take 4 := by
  obtain ⟨ht, hd⟩ := tronRaw_take_drop privateKey
  refine ⟨base58Decode_encode_tronRaw privateKey, tronRaw_length privateKey, rfl, ?_⟩
  rw [hd, ht]
  rfl

instance : NeZero p256 := ⟨by norm_num [p256]⟩

instance : NeZero pK := ⟨by norm_num [pK]⟩

/-- The coordinate values produced by `scalarBaseMult256` are below
`2 ^ 256`. -/
theorem scalarBaseMult256_lt (d : Nat) :
    (scalarBaseMult256 d).1 < 2 ^ 256 ∧ (scalarBaseMult256 d).2 < 2 ^ 256 := by
  unfold scalarBaseMult256
  cases hP : ecSmul a256 256 (d % n256) (some (gx256, gy256)) with
  | none => norm_num
  | some xy =>
    obtain ⟨x, y⟩ := xy
    have hx : x.val < p256 := ZMod.val_lt x
    have hy : y.val < p256 := ZMod.val_lt y
    have hp : p256 < 2 ^ 256 := by norm_num [p256]
    exact ⟨by simpa using lt_trans hx hp, by simpa using lt_trans hy hp⟩

/-- Length of `natBytes` for a value with exactly 32 base-256 digits. -/
theorem natBytes_length_32 (n : Nat) (h1 : 2 ^ 248 ≤ n) (h2 : n < 2 ^ 256) :
    (natBytes n).length = 32 := by
  rw [natBytes, List.length_reverse]
  have e1 : (2:Nat) ^ 248 = 256 ^ 31 := by norm_num
  have e2 : (2:Nat) ^ 256 = 256 ^ (31 + 1) := by norm_num
  exact natBytesRev_length 31 40 n (e1 ▸ h1) (e2 ▸ h2) (by norm_num)

/-- Claim C4 (amended): the public-key serialisation is the byte `0x04`
followed by the minimal big-endian bytes of `X` and of `Y` (not fixed
32-byte fields), and the Keccak pre-image is that serialisation with the
`0x04` dropped.  The serialisation is 65 bytes — and the pre-image the
64-byte `X ‖ Y` — exactly in the generic case that both coordinate values
are at least `2 ^ 248`. -/
theorem claim_C4 (privateKey : List Nat) :
    pubKeyBytes privateKey =
      4 :: (natBytes (scalarBaseMult256 (bytesToNat privateKey)).1 ++
        natBytes (scalarBaseMult256 (bytesToNat privateKey)).2) ∧
    keccakPreimage privateKey =
      natBytes (scalarBaseMult256 (bytesToNat privateKey)).1 ++
        natBytes (scalarBaseMult256 (bytesToNat privateKey)).2 ∧
    (2 ^ 248 ≤ (scalarBaseMult256 (bytesToNat privateKey)).1 →
      2 ^ 248 ≤ (scalarBaseMult256 (bytesToNat privateKey)).2 →
      (pubKeyBytes privateKey).length = 65 ∧ (keccakPreimage privateKey).length = 64) := by
  refine ⟨rfl, rfl, fun hx hy => ?_⟩
  obtain ⟨hx2, hy2⟩ := scalarBaseMult256_lt (bytesToNat privateKey)
  have hlx := natBytes_length_32 _ hx hx2
  have hly := natBytes_length_32 _ hy hy2
  constructor
  · show (4 :: (natBytes _ ++ natBytes _)).length = 65
    simp [hlx, hly]
  · show (natBytes _ ++ natBytes _).length = 64
    simp [hlx, hly]

/-- Witness for claim C4: the key of scalar 1 maps to the P-256 base point,
both of whose coordinates are at least `2 ^ 248`, so its serialisation is
65 bytes and its pre-image 64 bytes. -/
theorem claim_C4_witness :
    (pubKeyBytes keyOne).length = 65 ∧ (keccakPreimage keyOne).length = 64 :=
  (claim_C4 keyOne).2.2 (by decide) (by decide)

/-- Counterexample to claim C4 as stated: the all-zero key is accepted (no
error), but its point is the infinity encoding `(0, 0)`, whose coordinates
serialise to empty byte strings: the "uncompressed public key" is the single
byte `0x04` — not 65 bytes — and the Keccak pre-image is empty — not the
64-byte `X ‖ Y`. -/
theorem claim_C4_counterexample :
    (PrivateKeyToTronAddress (List.replicate 32 0)).2 = none ∧
      pubKeyBytes (List.replicate 32 0) = [4] ∧
      keccakPreimage (List.replicate 32 0) = [] := by
  refine ⟨rfl, ?_, ?_⟩ <;> decide

/-- Claim C8 (confirmed): every produced address is a base58 string over the
Bitcoin alphabet, of length 34 (within the stated 33–35), and its first
character is always the same fixed letter `T` (ASCII 84) — the character the
version byte `0x41` forces. -/
theorem claim_C8 (privateKey : List Nat) :
    33 ≤ (PrivateKeyToTronAddress privateKey).1.length ∧
      (PrivateKeyToTronAddress privateKey).1.length ≤ 35 ∧
      (PrivateKeyToTronAddress privateKey).1.head? = some 84 ∧
      ((PrivateKeyToTronAddress privateKey).1.all fun c => decide (c ∈ b58Alphabet)) = true := by
  have hl := tronAddress_length privateKey
  refine ⟨by omega, by omega, tronAddress_head privateKey, ?_⟩
  rw [List.all_eq_true]
  intro c hc
  exact decide_eq_true (tronAddress_chars privateKey c hc)

/-- Claim C10 (confirmed): two keys whose big-endian values are congruent
modulo the P-256 group order produce the same address, because the scalar
is reduced modulo the order (never rejected) before the base-point
multiplication. -/
theorem claim_C10 (k1 k2 : List Nat)
    (h : bytesToNat k1 % n256 = bytesToNat k2 % n256) :
    PrivateKeyToTronAddress k1 = PrivateKeyToTronAddress k2 := by
  have hsb : scalarBaseMult256 (bytesToNat k1) = scalarBaseMult256 (bytesToNat k2) := by
    unfold scalarBaseMult256
    rw [h]
  have hpub : pubKeyBytes k1 = pubKeyBytes k2 := by
    unfold pubKeyBytes
    rw [hsb]
  have hpre : keccakPreimage k1 = keccakPreimage k2 := by
    unfold keccakPreimage
    rw [hpub]
  have haddr : tronAddressBytes k1 = tronAddressBytes k2 := by
    unfold tronAddressBytes
    rw [hpre]
  have hcs : tronChecksum k1 = tronChecksum k2 := by
    unfold tronChecksum
    rw [haddr]
  show (base58Encode (tronRaw k1), (none : Option WalletError)) = (base58Encode (tronRaw k2), none)
  unfold tronRaw
  rw [haddr, hcs]

/-- Witness for claim C10: the distinct 32-byte keys of values 1 and
`n256 + 1` differ by exactly the group order and map to the identical
address. -/
theorem claim_C10_witness :
    keyOne ≠ keyOrderPlusOne ∧
      bytesToNat keyOrderPlusOne = bytesToNat keyOne + n256 ∧
      PrivateKeyToTronAddress keyOne = PrivateKeyToTronAddress keyOrderPlusOne :=
  ⟨by decide, by decide, claim_C10 keyOne keyOrderPlusOne (by decide)⟩


/-! ## Inversion of a successful derivation -/

theorem newChildKey_ok_key (hm : List Nat → List Nat → List Nat) (k : ExtKey)
    (idx : Nat) (c : ExtKey) (h : newChildKey hm k idx = .ok c) :
    ∃ n, c.key = padLeft 32 (natBytes n) := by
  unfold newChildKey at h
  split at h
  · simp only [] at h
    split at h
    · exact ⟨_, by cases h; rfl⟩
    · simp at h
  · simp only [] at h
    split at h
    · exact ⟨_, by cases h; rfl⟩
    · simp at h

theorem DeriveCore_ok_inversion (sf : List Nat → List Nat)
    (hm : List Nat → List Nat → List Nat) (m : List Nat) (i : Nat) (a p : List Nat)
    (h : DeriveCore sf hm m i = .ok (.ok (a, p))) :
    ∃ k0 k1 k2 k3 k4 wk : ExtKey,
      newMasterKey hm (sf m) = .ok k0 ∧
      newChildKey hm k0 (2147483648 + 44) = .ok k1 ∧
      newChildKey hm k1 (2147483648 + 195) = .ok k2 ∧
      newChildKey hm k2 (2147483648 + 0) = .ok k3 ∧
      newChildKey hm k3 0 = .ok k4 ∧
      newChildKey hm k4 (i % 4294967296) = .ok wk ∧
      a = (PrivateKeyToTronAddress wk.key).1 ∧ p = hexEncode wk.key := by
  unfold DeriveCore stepDiscardingError at h
  split at h
  · simp at h
  next k0 heq0 =>
    split at h
    · simp at h
    next purpose heqP =>
      split at h
      · simp at h
      next coinType heqC =>
        split at h
        · simp at h
        next account heqA =>
          split at h
          · simp at h
          next change heqCh =>
            split at h
            · simp at h
            next ch heqSome =>
              split at h
              · simp at h
              next wk heqW =>
                split at h
                next addr e heqPTA =>
                  simp [PrivateKeyToTronAddress] at heqPTA
                next addr heqPTA =>
                  simp only [Outcome.ok.injEq, Except.ok.injEq, Prod.mk.injEq] at h
                  simp only [Outcome.ok.injEq] at heqP
                  cases h1 : newChildKey hm k0 (2147483648 + 44) with
                  | error e => rw [h1] at heqP; simp at heqP; subst heqP; simp at heqC
                  | ok k1 =>
                  rw [h1] at heqP; simp at heqP; subst heqP
                  simp only [Outcome.ok.injEq] at heqC
                  cases h2 : newChildKey hm k1 (2147483648 + 195) with
                  | error e => rw [h2] at heqC; simp at heqC; subst heqC; simp at heqA
                  | ok k2 =>
                  rw [h2] at heqC; simp at heqC; subst heqC
                  simp only [Outcome.ok.injEq] at heqA
                  cases h3 : newChildKey hm k2 (2147483648 + 0) with
                  | error e => rw [h3] at heqA; simp at heqA; subst heqA; simp at heqCh
                  | ok k3 =>
                  rw [h3] at heqA; simp at heqA; subst heqA
                  simp only [Outcome.ok.injEq] at heqCh
                  cases h4 : newChildKey hm k3 0 with
                  | error e => rw [h4] at heqCh; simp at heqCh
                  | ok k4 =>
                  rw [h4] at heqCh
                  simp only [Option.some.injEq] at heqCh
                  subst heqCh
                  exact ⟨k0, k1, k2, k3, k4, wk, heq0, h1, h2, h3, h4, heqW,
                    by rw [heqPTA]; exact h.1.symm, h.2.symm⟩

theorem newChildKey_key_bytes (hm : List Nat → List Nat → List Nat) (k : ExtKey)
    (idx : Nat) (c : ExtKey) (h : newChildKey hm k idx = .ok c) :
    ∀ b ∈ c.key, b < 256 := by
  obtain ⟨n, hn⟩ := newChildKey_ok_key hm k idx c h
  rw [hn]
  exact padLeft_mem_lt 32 _ (natBytes_mem_lt _)

/-! ## Claim C6: round trip from the derived private key to the address -/

/-- Claim C6 (confirmed): whenever the derivation entry point succeeds with
a pair (address, privateKeyHex), hex-decoding the private key succeeds and
feeding the bytes to `PrivateKeyToTronAddress` reproduces exactly the
returned address with no error.  Stated for every instantiation of the
seed-derivation and HMAC parameters, hence in particular for the concrete
`DeriveTronAddressFromMnemonic`. -/
theorem claim_C6 (sf : List Nat → List Nat) (hm : List Nat → List Nat → List Nat)
    (m : List Nat) (i : Nat) (a p : List Nat)
    (h : DeriveCore sf hm m i = .ok (.ok (a, p))) :
    ∃ bs, hexDecode p = some bs ∧ PrivateKeyToTronAddress bs = (a, none) := by
  obtain ⟨k0, k1, k2, k3, k4, wk, _, _, _, _, _, hW, ha, hp⟩ :=
    DeriveCore_ok_inversion sf hm m i a p h
  refine ⟨wk.key, ?_, ?_⟩
  · rw [hp]
    exact hexDecode_hexEncode wk.key (newChildKey_key_bytes hm k4 _ wk hW)
  · show (base58Encode (tronRaw wk.key), (none : Option WalletError)) = (a, none)
    rw [ha]
    rfl

/-- Witness for claim C6: the transparent test oracles at index 0 derive a
concrete pair, and the round trip holds for it by the theorem. -/
theorem claim_C6_witness :
    ∃ bs, hexDecode (List.replicate 63 48 ++ [98]) = some bs ∧
      PrivateKeyToTronAddress bs =
        ([84, 86, 72, 115, 84, 68, 70, 65, 84, 54, 121, 86, 81, 97, 70, 115, 122, 106,
          120, 122, 86, 57, 111, 101, 49, 54, 120, 54, 82, 56, 115, 112, 87, 81], none) :=
  claim_C6 sfCheap hmCheap [] 0 _ _ (by decide)

/-! ## Claim C7: the derivation path -/

theorem newChildKey_hardened (hm : List Nat → List Nat → List Nat) (k : ExtKey) (i : Nat) :
    newChildKey hm k (2147483648 + i) = childHardened hm k i := by
  unfold newChildKey childHardened
  rw [if_pos (Nat.le_add_right 2147483648 i)]

theorem newChildKey_nonHardened (hm : List Nat → List Nat → List Nat) (k : ExtKey)
    (i : Nat) (h : i < 2147483648) :
    newChildKey hm k i = childNonHardened hm k i := by
  unfold newChildKey childNonHardened
  rw [if_neg (show ¬ 2147483648 ≤ i by omega)]

theorem exceptOkBind {ε α β : Type} (a : α) (f : α → Except ε β) :
    (Except.ok a : Except ε α) >>= f = f a := rfl

/-- Claim C7 (amended): a successful derivation returns the hex of the leaf
key of walking `m/44'/195'/0'` with hardened steps, then the non-hardened
change-0 step, then a final step that is non-hardened only for indices below
`2 ^ 31`: for an index of at least `2 ^ 31` the library hardens it
(`codeWalk`).  Stated for every instantiation of the seed and HMAC
parameters. -/
theorem claim_C7 (sf : List Nat → List Nat) (hm : List Nat → List Nat → List Nat)
    (m : List Nat) (i : Nat) (a p : List Nat)
    (h : DeriveCore sf hm m i = .ok (.ok (a, p))) :
    ∃ wk : ExtKey, codeWalk hm (sf m) i = .ok wk ∧
      p = hexEncode wk.key ∧ a = (PrivateKeyToTronAddress wk.key).1 := by
  obtain ⟨k0, k1, k2, k3, k4, wk, h0, h1, h2, h3, h4, hW, ha, hp⟩ :=
    DeriveCore_ok_inversion sf hm m i a p h
  refine ⟨wk, ?_, hp, ha⟩
  unfold codeWalk
  rw [h0, exceptOkBind, ← newChildKey_hardened hm k0 44, h1, exceptOkBind,
    ← newChildKey_hardened hm k1 195, h2, exceptOkBind,
    ← newChildKey_hardened hm k2 0, h3, exceptOkBind,
    ← newChildKey_nonHardened hm k3 0 (by norm_num), h4, exceptOkBind]
  by_cases hc : i % 4294967296 < 2147483648
  · rw [if_pos hc, ← newChildKey_nonHardened hm k4 _ hc]
    exact hW
  · rw [if_neg hc]
    exact hW

/-- Witness for claim C7: the transparent test oracles at index 0 derive a
concrete pair whose private key is the leaf of the walk. -/
theorem claim_C7_witness :
    ∃ wk : ExtKey, codeWalk hmCheap (sfCheap []) 0 = .ok wk ∧
      (List.replicate 63 48 ++ [98] : List Nat) = hexEncode wk.key ∧
      ([84, 86, 72, 115, 84, 68, 70, 65, 84, 54, 121, 86, 81, 97, 70, 115, 122, 106,
        120, 122, 86, 57, 111, 101, 49, 54, 120, 54, 82, 56, 115, 112, 87, 81] : List Nat) =
        (PrivateKeyToTronAddress wk.key).1 :=
  claim_C7 sfCheap hmCheap [] 0 _ _ (by decide)

/-- Counterexample to claim C7 as stated: with the transparent oracles and
the caller-supplied index `2 ^ 31`, the derivation succeeds, the claimed
walk (whose fifth step is the specification's non-hardened derivation with
the caller's index) also succeeds, and the two private keys differ — the
library hardens every index of at least `2 ^ 31`, so the fifth step of the
real walk is a hardened derivation, not the claimed non-hardened one. -/
theorem claim_C7_counterexample :
    DeriveCore sfCheap hmCheap [] 2147483648 =
      .ok (.ok ([84, 69, 101, 80, 103, 83, 100, 119, 81, 68, 52, 97, 81, 56, 100, 66,
        109, 103, 83, 83, 111, 115, 120, 83, 72, 111, 121, 74, 67, 65, 74, 119, 54, 74],
        List.replicate 63 48 ++ [57])) ∧
      specWalk hmCheap (sfCheap []) 2147483648 =
        .ok ⟨List.replicate 31 0 ++ [11], List.replicate 32 2⟩ ∧
      (List.replicate 63 48 ++ [57] : List Nat) ≠
        hexEncode (List.replicate 31 0 ++ [11]) := by
  refine ⟨by decide, by decide, by decide⟩

/-! ## Claim C2: propagation of child-derivation failures -/

/-- Claim C2 (amended): only a failure of the fifth (wallet-index) child
step is surfaced unchanged as the error result; the errors of the four
earlier child steps are discarded by the `_` assignments, leaving a nil
key, so a failure there makes the next step dereference a nil receiver and
the call crashes instead of returning the error.  Stated for every
instantiation of the seed and HMAC parameters. -/
theorem claim_C2 (sf : List Nat → List Nat) (hm : List Nat → List Nat → List Nat)
    (m : List Nat) (i : Nat) :
    (∀ k0 e, newMasterKey hm (sf m) = .ok k0 →
      newChildKey hm k0 (2147483648 + 44) = .error e →
      DeriveCore sf hm m i = .panics) ∧
    (∀ k0 k1 e, newMasterKey hm (sf m) = .ok k0 →
      newChildKey hm k0 (2147483648 + 44) = .ok k1 →
      newChildKey hm k1 (2147483648 + 195) = .error e →
      DeriveCore sf hm m i = .panics) ∧
    (∀ k0 k1 k2 e, newMasterKey hm (sf m) = .ok k0 →
      newChildKey hm k0 (2147483648 + 44) = .ok k1 →
      newChildKey hm k1 (2147483648 + 195) = .ok k2 →
      newChildKey hm k2 (2147483648 + 0) = .error e →
      DeriveCore sf hm m i = .panics) ∧
    (∀ k0 k1 k2 k3 e, newMasterKey hm (sf m) = .ok k0 →
      newChildKey hm k0 (2147483648 + 44) = .ok k1 →
      newChildKey hm k1 (2147483648 + 195) = .ok k2 →
      newChildKey hm k2 (2147483648 + 0) = .ok k3 →
      newChildKey hm k3 0 = .error e →
      DeriveCore sf hm m i = .panics) ∧
    (∀ k0 k1 k2 k3 k4 e, newMasterKey hm (sf m) = .ok k0 →
      newChildKey hm k0 (2147483648 + 44) = .ok k1 →
      newChildKey hm k1 (2147483648 + 195) = .ok k2 →
      newChildKey hm k2 (2147483648 + 0) = .ok k3 →
      newChildKey hm k3 0 = .ok k4 →
      newChildKey hm k4 (i % 4294967296) = .error e →
      DeriveCore sf hm m i = .ok (.error e)) := by
  refine ⟨?_, ?_, ?_, ?_, ?_⟩
  · intro k0 e h0 hE
    simp [DeriveCore, stepDiscardingError, h0, hE]
  · intro k0 k1 e h0 h1 hE
    simp [DeriveCore, stepDiscardingError, h0, h1, hE]
  · intro k0 k1 k2 e h0 h1 h2 hE
    simp [DeriveCore, stepDiscardingError, h0, h1, h2, hE]
  · intro k0 k1 k2 k3 e h0 h1 h2 h3 hE
    simp [DeriveCore, stepDiscardingError, h0, h1, h2, h3, hE]
  · intro k0 k1 k2 k3 k4 e h0 h1 h2 h3 h4 hE
    simp [DeriveCore, stepDiscardingError, h0, h1, h2, h3, h4, hE]

/-- Witness for claim C2: with transparent oracles that fail exactly at the
fifth (index-7) step, the derivation returns precisely the step's
`DerivationError`. -/
theorem claim_C2_witness :
    DeriveCore sfCheap hmFailIndex7 [] 7 = .ok (.error .derivationError) :=
  (claim_C2 sfCheap hmFailIndex7 [] 7).2.2.2.2
    ⟨List.replicate 31 0 ++ [2], List.replicate 32 2⟩
    ⟨List.replicate 31 0 ++ [3], List.replicate 32 2⟩
    ⟨List.replicate 31 0 ++ [4], List.replicate 32 2⟩
    ⟨List.replicate 31 0 ++ [5], List.replicate 32 2⟩
    ⟨List.replicate 31 0 ++ [8], List.replicate 32 2⟩
    .derivationError
    (by decide) (by decide) (by decide) (by decide) (by decide) (by decide)

/-- Counterexample to claim C2 as stated: with transparent oracles that
fail exactly on hardened child data, the purpose step (44 hardened) fails
with a `DerivationError`, but the derivation call does not surface it — the
discarded error leaves a nil key and the next step crashes, so the outcome
is a panic, not the error result the claim demands. -/
theorem claim_C2_counterexample :
    newMasterKey hmFailHardened (sfCheap []) =
      .ok ⟨List.replicate 31 0 ++ [2], List.replicate 32 2⟩ ∧
    newChildKey hmFailHardened ⟨List.replicate 31 0 ++ [2], List.replicate 32 2⟩
      (2147483648 + 44) = .error .derivationError ∧
    DeriveCore sfCheap hmFailHardened [] 0 = .panics := by
  refine ⟨by decide, by decide, by decide⟩

/-! ## Primality certificates for the P-256 field and group orders

Claim C5 needs `ZMod p256` to be a field (for the curve group law) and the
primality of the group order `n256` (for the order argument), so both
256-bit moduli are certified prime via `lucas_primality`, with Pratt-style
certificate chains generated from the factorisations of `p - 1`.  `bpow`
makes the modular exponentiations of the certificates kernel-computable. -/

theorem bpow_eq_pow {M : Type} [Monoid M] (x : M) :
    ∀ fuel e, e < 2 ^ fuel → bpow x fuel e = x ^ e := by
  intro fuel
  induction fuel with
  | zero =>
    intro e he
    interval_cases e
    simp [bpow]
  | succ f ih =>
    intro e he
    by_cases h0 : e = 0
    · simp [bpow, h0]
    · have hp2 : (2:Nat) ^ (f + 1) = 2 ^ f * 2 := pow_succ 2 f
      have hdf : e / 2 < 2 ^ f := by omega
      simp only [bpow, if_neg h0]
      rw [ih (e / 2) hdf]
      by_cases hpar : e % 2 = 1
      · rw [if_pos hpar]
        calc x ^ (e / 2) * x ^ (e / 2) * x = x ^ (e / 2 + e / 2 + 1) := by
              rw [pow_add, pow_add, pow_one]
        _ = x ^ e := by congr 1; omega
      · rw [if_neg hpar, mul_one]
        calc x ^ (e / 2) * x ^ (e / 2) = x ^ (e / 2 + e / 2) := by rw [pow_add]
        _ = x ^ e := by congr 1; omega

/-- Product of a list of prime powers. -/
def prodPows : List (Nat × Nat) → Nat
  | [] => 1
  | be :: t => be.1 ^ be.2 * prodPows t

/-- All bases of a prime-power list are prime. -/
def allPrime : List (Nat × Nat) → Prop
  | [] => True
  | be :: t => Nat.Prime be.1 ∧ allPrime t

theorem mem_of_prime_dvd_prodPows (q : Nat) (hq : q.Prime) :
    ∀ L : List (Nat × Nat), allPrime L → q ∣ prodPows L → q ∈ L.map Prod.fst := by
  intro L
  induction L with
  | nil =>
    intro _ hdvd
    exact absurd (Nat.le_of_dvd one_pos hdvd) (by have := hq.two_le; omega)
  | cons be t ih =>
    intro hall hdvd
    obtain ⟨hb, ht⟩ := hall
    rcases (Nat.Prime.dvd_mul hq).mp hdvd with h | h
    · have h2 : q ∣ be.1 := hq.dvd_of_dvd_pow h
      have h3 : q = be.1 := (Nat.prime_dvd_prime_iff_eq hq hb).mp h2
      exact List.mem_map.mpr ⟨be, List.mem_cons_self be t, h3.symm⟩
    · exact List.mem_cons_of_mem _ (ih ht h)

theorem lucasCert (p a : Nat) (L : List (Nat × Nat))
    (hlt : p - 1 < 2 ^ 256)
    (hprod : p - 1 = prodPows L)
    (hprimes : allPrime L)
    (ha : bpow (a : ZMod p) 256 (p - 1) = 1)
    (hd : ∀ be ∈ L, bpow (a : ZMod p) 256 ((p - 1) / be.1) ≠ 1) : Nat.Prime p := by
  apply lucas_primality p (a : ZMod p)
  · rw [← bpow_eq_pow _ 256 _ hlt]
    exact ha
  · intro q hq hdvd
    have hmem : q ∈ L.map Prod.fst :=
      mem_of_prime_dvd_prodPows q hq L hprimes (hprod ▸ hdvd)
    obtain ⟨be, hbe, hbq⟩ := List.mem_map.mp hmem
    have hdlt : (p - 1) / q < 2 ^ 256 := lt_of_le_of_lt (Nat.div_le_self _ _) hlt
    rw [← bpow_eq_pow _ 256 _ hdlt]
    have := hd be hbe
    rwa [hbq] at this
theorem prime_2 : Nat.Prime 2 := by norm_num

theorem prime_3 : Nat.Prime 3 := by norm_num

theorem prime_5 : Nat.Prime 5 := by norm_num

theorem prime_7 : Nat.Prime 7 := by norm_num

theorem prime_11 : Nat.Prime 11 := by norm_num

theorem prime_13 : Nat.Prime 13 := by norm_num

theorem prime_17 : Nat.Prime 17 := by norm_num

theorem prime_19 : Nat.Prime 19 := by norm_num

theorem prime_23 : Nat.Prime 23 := by norm_num

theorem prime_29 : Nat.Prime 29 := by norm_num

theorem prime_31 : Nat.Prime 31 := by norm_num

theorem prime_37 : Nat.Prime 37 := by norm_num

theorem prime_41 : Nat.Prime 41 := by norm_num

theorem prime_43 : Nat.Prime 43 := by norm_num

theorem prime_53 : Nat.Prime 53 := by norm_num

theorem prime_71 : Nat.Prime 71 := by norm_num

theorem prime_97 : Nat.Prime 97 := by norm_num

theorem prime_107 : Nat.Prime 107 := by norm_num

theorem prime_127 : Nat.Prime 127 := by norm_num

theorem prime_131 : Nat.Prime 131 := by norm_num

theorem prime_151 : Nat.Prime 151 := by norm_num

theorem prime_157 : Nat.Prime 157 := by norm_num

theorem prime_173 : Nat.Prime 173 := by norm_num

theorem prime_181 : Nat.Prime 181 := by norm_num

theorem prime_197 : Nat.Prime 197 := by norm_num

theorem prime_229 : Nat.Prime 229 := by norm_num

theorem prime_241 : Nat.Prime 241 := by norm_num

theorem prime_257 : Nat.Prime 257 := by norm_num

theorem prime_263 : Nat.Prime 263 := by norm_num

theorem prime_311 : Nat.Prime 311 := by norm_num

theorem prime_313 : Nat.Prime 313 := by norm_num

theorem prime_337 : Nat.Prime 337 := by norm_num

theorem prime_373 : Nat.Prime 373 := by norm_num

theorem prime_641 : Nat.Prime 641 := by norm_num

theorem prime_661 : Nat.Prime 661 := by norm_num

theorem prime_727 : Nat.Prime 727 := by norm_num

theorem prime_757 : Nat.Prime 757 := by norm_num

theorem prime_919 : Nat.Prime 919 := by norm_num

theorem prime_1087 : Nat.Prime 1087 := by norm_num

theorem prime_1201 : Nat.Prime 1201 := by norm_num

theorem prime_1297 : Nat.Prime 1297 := by norm_num

theorem prime_1511 : Nat.Prime 1511 := by norm_num

theorem prime_1531 : Nat.Prime 1531 := by norm_num

theorem prime_2411 : Nat.Prime 2411 := by norm_num

theorem prime_3023 : Nat.Prime 3023 := by norm_num

theorem prime_3407 : Nat.Prime 3407 := by norm_num

theorem prime_3677 : Nat.Prime 3677 := by norm_num

theorem prime_3769 : Nat.Prime 3769 := by norm_num

theorem prime_4349 : Nat.Prime 4349 := by norm_num

theorem prime_9547 : Nat.Prime 9547 := by norm_num

theorem prime_16879 : Nat.Prime 16879 := by norm_num

theorem prime_17449 : Nat.Prime 17449 := by norm_num

theorem prime_18169 : Nat.Prime 18169 := by norm_num

theorem prime_38189 : Nat.Prime 38189 := by norm_num

theorem prime_65537 : Nat.Prime 65537 := by norm_num

theorem prime_78283 : Nat.Prime 78283 := by norm_num

theorem prime_104471 : Nat.Prime 104471 := by norm_num

theorem prime_126241 : Nat.Prime 126241 := by norm_num

theorem prime_155317 : Nat.Prime 155317 := by norm_num

theorem prime_490463 : Nat.Prime 490463 := by norm_num

theorem prime_704251 : Nat.Prime 704251 := by norm_num

theorem prime_3969899 : Nat.Prime 3969899 :=
  lucasCert 3969899 2 [(2, 1), (19, 1), (104471, 1)]
    (by norm_num) (by norm_num [prodPows]) ⟨prime_2, prime_19, prime_104471, trivial⟩
    (by decide) (by decide)

theorem prime_6700417 : Nat.Prime 6700417 :=
  lucasCert 6700417 5 [(2, 7), (3, 1), (17449, 1)]
    (by norm_num) (by norm_num [prodPows]) ⟨prime_2, prime_3, prime_17449, trivial⟩
    (by decide) (by decide)

theorem prime_9350987 : Nat.Prime 9350987 :=
  lucasCert 9350987 2 [(2, 1), (17, 1), (229, 1), (1201, 1)]
    (by norm_num) (by norm_num [prodPows]) ⟨prime_2, prime_17, prime_229, prime_1201, trivial⟩
    (by decide) (by decide)

theorem prime_187019741 : Nat.Prime 187019741 :=
  lucasCert 187019741 2 [(2, 2), (5, 1), (9350987, 1)]
    (by norm_num) (by norm_num [prodPows]) ⟨prime_2, prime_5, prime_9350987, trivial⟩
    (by decide) (by decide)

theorem prime_191039911 : Nat.Prime 191039911 :=
  lucasCert 191039911 3 [(2, 1), (3, 1), (5, 1), (41, 1), (155317, 1)]
    (by norm_num) (by norm_num [prodPows]) ⟨prime_2, prime_3, prime_5, prime_41, prime_155317, trivial⟩
    (by decide) (by decide)

theorem prime_204061199 : Nat.Prime 204061199 :=
  lucasCert 204061199 11 [(2, 1), (11, 1), (23, 1), (107, 1), (3769, 1)]
    (by norm_num) (by norm_num [prodPows]) ⟨prime_2, prime_11, prime_23, prime_107, prime_3769, trivial⟩
    (by decide) (by decide)

theorem prime_311245691 : Nat.Prime 311245691 :=
  lucasCert 311245691 2 [(2, 1), (5, 1), (7, 1), (17, 1), (29, 2), (311, 1)]
    (by norm_num) (by norm_num [prodPows]) ⟨prime_2, prime_5, prime_7, prime_17, prime_29, prime_311, trivial⟩
    (by decide) (by decide)

theorem prime_622491383 : Nat.Prime 622491383 :=
  lucasCert 622491383 5 [(2, 1), (311245691, 1)]
    (by norm_num) (by norm_num [prodPows]) ⟨prime_2, prime_311245691, trivial⟩
    (by decide) (by decide)

theorem prime_34282281433 : Nat.Prime 34282281433 :=
  lucasCert 34282281433 17 [(2, 3), (3, 1), (7, 1), (204061199, 1)]
    (by norm_num) (by norm_num [prodPows]) ⟨prime_2, prime_3, prime_7, prime_204061199, trivial⟩
    (by decide) (by decide)

theorem prime_66417393611 : Nat.Prime 66417393611 :=
  lucasCert 66417393611 6 [(2, 1), (5, 1), (53, 1), (173, 1), (197, 1), (3677, 1)]
    (by norm_num) (by norm_num [prodPows]) ⟨prime_2, prime_5, prime_53, prime_173, prime_197, prime_3677, trivial⟩
    (by decide) (by decide)

theorem prime_1002328039319 : Nat.Prime 1002328039319 :=
  lucasCert 1002328039319 19 [(2, 1), (126241, 1), (3969899, 1)]
    (by norm_num) (by norm_num [prodPows]) ⟨prime_2, prime_126241, prime_3969899, trivial⟩
    (by decide) (by decide)

theorem prime_11290956913871 : Nat.Prime 11290956913871 :=
  lucasCert 11290956913871 13 [(2, 1), (5, 1), (17, 1), (66417393611, 1)]
    (by norm_num) (by norm_num [prodPows]) ⟨prime_2, prime_5, prime_17, prime_66417393611, trivial⟩
    (by decide) (by decide)

theorem prime_46076956964474543 : Nat.Prime 46076956964474543 :=
  lucasCert 46076956964474543 5 [(2, 1), (23, 1), (18169, 1), (78283, 1), (704251, 1)]
    (by norm_num) (by norm_num [prodPows]) ⟨prime_2, prime_23, prime_18169, prime_78283, prime_704251, trivial⟩
    (by decide) (by decide)

theorem prime_208150935158385979 : Nat.Prime 208150935158385979 :=
  lucasCert 208150935158385979 2 [(2, 1), (3, 1), (11, 1), (43, 1), (127, 1), (3023, 1), (191039911, 1)]
    (by norm_num) (by norm_num [prodPows]) ⟨prime_2, prime_3, prime_11, prime_43, prime_127, prime_3023, prime_191039911, trivial⟩
    (by decide) (by decide)

theorem prime_2624747550333869278416773953 : Nat.Prime 2624747550333869278416773953 :=
  lucasCert 2624747550333869278416773953 7 [(2, 6), (3, 2), (1297, 1), (16879, 1), (208150935158385979, 1)]
    (by norm_num) (by norm_num [prodPows]) ⟨prime_2, prime_3, prime_1297, prime_16879, prime_208150935158385979, trivial⟩
    (by decide) (by decide)

theorem prime_774023187263532362759620327192479577272145303 : Nat.Prime 774023187263532362759620327192479577272145303 :=
  lucasCert 774023187263532362759620327192479577272145303 3 [(2, 1), (3, 2), (2411, 1), (34282281433, 1), (11290956913871, 1), (46076956964474543, 1)]
    (by norm_num) (by norm_num [prodPows]) ⟨prime_2, prime_3, prime_2411, prime_34282281433, prime_11290956913871, prime_46076956964474543, trivial⟩
    (by decide) (by decide)

theorem prime_835945042244614951780389953367877943453916927241 : Nat.Prime 835945042244614951780389953367877943453916927241 :=
  lucasCert 835945042244614951780389953367877943453916927241 11 [(2, 3), (3, 3), (5, 1), (774023187263532362759620327192479577272145303, 1)]
    (by norm_num) (by norm_num [prodPows]) ⟨prime_2, prime_3, prime_5, prime_774023187263532362759620327192479577272145303, trivial⟩
    (by decide) (by decide)

theorem prime_115792089210356248762697446949407573529996955224135760342422259061068512044369 : Nat.Prime 115792089210356248762697446949407573529996955224135760342422259061068512044369 :=
  lucasCert 115792089210356248762697446949407573529996955224135760342422259061068512044369 7 [(2, 4), (3, 1), (71, 1), (131, 1), (373, 1), (3407, 1), (17449, 1), (38189, 1), (187019741, 1), (622491383, 1), (1002328039319, 1), (2624747550333869278416773953, 1)]
    (by norm_num) (by norm_num [prodPows]) ⟨prime_2, prime_3, prime_71, prime_131, prime_373, prime_3407, prime_17449, prime_38189, prime_187019741, prime_622491383, prime_1002328039319, prime_2624747550333869278416773953, trivial⟩
    (by decide) (by decide)

theorem prime_115792089210356248762697446949407573530086143415290314195533631308867097853951 : Nat.Prime 115792089210356248762697446949407573530086143415290314195533631308867097853951 :=
  lucasCert 115792089210356248762697446949407573530086143415290314195533631308867097853951 6 [(2, 1), (3, 1), (5, 2), (17, 1), (257, 1), (641, 1), (1531, 1), (65537, 1), (490463, 1), (6700417, 1), (835945042244614951780389953367877943453916927241, 1)]
    (by norm_num) (by norm_num [prodPows]) ⟨prime_2, prime_3, prime_5, prime_17, prime_257, prime_641, prime_1531, prime_65537, prime_490463, prime_6700417, prime_835945042244614951780389953367877943453916927241, trivial⟩
    (by decide) (by decide)
theorem prime_p256 : Nat.Prime p256 := by
  rw [show p256 = 115792089210356248762697446949407573530086143415290314195533631308867097853951 from rfl]
  exact prime_115792089210356248762697446949407573530086143415290314195533631308867097853951

theorem prime_n256 : Nat.Prime n256 := by
  rw [show n256 = 115792089210356248762697446949407573529996955224135760342422259061068512044369 from rfl]
  exact prime_115792089210356248762697446949407573529996955224135760342422259061068512044369

instance fact_prime_p256 : Fact (Nat.Prime p256) := ⟨prime_p256⟩

/-! ## The P-256 curve as a Mathlib Weierstrass curve (claim C5)

The executable chord-and-tangent arithmetic (`ecAdd`, `ecSmul`) is related
to Mathlib's group of nonsingular points of the P-256 Weierstrass curve:
this supplies closure of the curve equation under the group operation and
the order argument showing that a nonzero scalar multiple of the base point
is never the point at infinity.  The kernel evaluation of the full
`n256`-fold multiple is carried out by a `Nat`-valued mirror of the same
double-and-add loop (`nStepN`), faster to reduce than `ZMod` terms and
related to the `ZMod` layer by `ZMod.val` lemmas. -/

/-- The NIST P-256 curve `y^2 = x^3 - 3*x + b` as a Mathlib Weierstrass curve. -/
def W256 : WeierstrassCurve.Affine (ZMod p256) := ⟨0, 0, 0, a256, b256⟩

theorem negY256 (x y : ZMod p256) : W256.negY x y = -y := by
  simp [WeierstrassCurve.Affine.negY, W256]

theorem gNonsingular : W256.Nonsingular gx256 gy256 := by
  rw [WeierstrassCurve.Affine.nonsingular_iff, WeierstrassCurve.Affine.equation_iff]
  refine ⟨by decide, Or.inr (by decide)⟩

/-- The P-256 base point as an element of the Mathlib point group. -/
def GPt : W256.Point :=
  WeierstrassCurve.Affine.Point.some gNonsingular

/-- The affine coordinates of a Mathlib point, `none` for the zero point. -/
def toAff : W256.Point → AffPoint p256
  | .zero => none
  | @WeierstrassCurve.Affine.Point.some _ _ _ x y _ => some (x, y)

theorem toAff_eq_none {P : W256.Point} (h : toAff P = none) : P = 0 := by
  cases P with
  | zero => rfl
  | some h1 => simp [toAff] at h

theorem ecInv_eq_inv (z : ZMod p256) (hz : z ≠ 0) : ecInv z = z⁻¹ := by
  have h1 : ecInv z = z ^ (p256 - 2) :=
    bpow_eq_pow z 256 (p256 - 2) (by norm_num [p256])
  have h2 : z ^ (p256 - 2) * z = 1 := by
    calc z ^ (p256 - 2) * z = z ^ (p256 - 2 + 1) := (pow_succ z _).symm
    _ = z ^ (p256 - 1) := by norm_num [p256]
    _ = 1 := ZMod.pow_card_sub_one_eq_one hz
  have h3 : z * z ^ (p256 - 2) = 1 := by rw [mul_comm]; exact h2
  rw [h1]
  exact (inv_eq_of_mul_eq_one_right h3).symm

theorem ecAdd_toAff (P Q : W256.Point) :
    ecAdd a256 (toAff P) (toAff Q) = toAff (P + Q) := by
  cases P with
  | zero =>
    rw [WeierstrassCurve.Affine.Point.zero_def, zero_add]
    cases Q <;> rfl
  | @some x1 y1 h1 =>
    cases Q with
    | zero =>
      rw [WeierstrassCurve.Affine.Point.zero_def, add_zero]
      rfl
    | @some x2 y2 h2 =>
      by_cases hxy : x1 = x2 ∧ y1 = -y2
      · have hzero : (WeierstrassCurve.Affine.Point.some h1) +
            (WeierstrassCurve.Affine.Point.some h2) = 0 :=
          WeierstrassCurve.Affine.Point.add_of_Y_eq hxy.1 (by rw [negY256]; exact hxy.2)
        rw [hzero]
        show ecAdd a256 (some (x1, y1)) (some (x2, y2)) = none
        simp only [ecAdd, if_pos hxy]
      · have hxy2 : x1 = x2 → y1 ≠ W256.negY x2 y2 := by
          intro hx hy
          rw [negY256] at hy
          exact hxy ⟨hx, hy⟩
        rw [WeierstrassCurve.Affine.Point.add_of_imp hxy2]
        have hL : (if x1 = x2 then (3 * x1 * x1 + a256) * ecInv (y1 + y1)
            else (y2 - y1) * ecInv (x2 - x1)) = W256.slope x1 x2 y1 y2 := by
          by_cases hx : x1 = x2
          · have hy : y1 ≠ W256.negY x2 y2 := hxy2 hx
            have hy12 : y1 = y2 := WeierstrassCurve.Affine.Y_eq_of_Y_ne h1.1 h2.1 hx hy
            have hyy : y1 + y1 ≠ 0 := by
              intro hcon
              apply hy
              rw [negY256]
              rw [← hy12]
              exact (neg_eq_of_add_eq_zero_right hcon).symm
            rw [if_pos hx, WeierstrassCurve.Affine.slope_of_Y_ne hx hy,
              ecInv_eq_inv _ hyy, negY256, div_eq_mul_inv]
            rw [show y1 - -y1 = y1 + y1 by ring]
            have hnum : (3 : ZMod p256) * x1 ^ 2 + 2 * W256.a₂ * x1 + W256.a₄ -
                W256.a₁ * y1 = 3 * x1 * x1 + a256 := by
              show (3 : ZMod p256) * x1 ^ 2 + 2 * 0 * x1 + a256 - 0 * y1 = 3 * x1 * x1 + a256
              ring
            rw [hnum]
          · have hsub : x2 - x1 ≠ 0 := sub_ne_zero.mpr (Ne.symm hx)
            rw [if_neg hx, WeierstrassCurve.Affine.slope_of_X_ne hx,
              ecInv_eq_inv _ hsub, div_eq_mul_inv]
            rw [show y1 - y2 = -(y2 - y1) by ring, show x1 - x2 = -(x2 - x1) by ring,
              inv_neg, neg_mul_neg]
        show ecAdd a256 (some (x1, y1)) (some (x2, y2)) = _
        simp only [ecAdd, if_neg hxy]
        rw [hL]
        show some (_, _) = some (_, _)
        have hX : W256.slope x1 x2 y1 y2 * W256.slope x1 x2 y1 y2 - x1 - x2 =
            W256.addX x1 x2 (W256.slope x1 x2 y1 y2) := by
          show _ = W256.slope x1 x2 y1 y2 ^ 2 + W256.a₁ * W256.slope x1 x2 y1 y2 - W256.a₂ - x1 - x2
          show _ = W256.slope x1 x2 y1 y2 ^ 2 + 0 * W256.slope x1 x2 y1 y2 - 0 - x1 - x2
          ring
        rw [hX]
        have hY : W256.slope x1 x2 y1 y2 *
              (x1 - W256.addX x1 x2 (W256.slope x1 x2 y1 y2)) - y1 =
            W256.addY x1 x2 y1 (W256.slope x1 x2 y1 y2) := by
          show _ = W256.negY (W256.addX x1 x2 (W256.slope x1 x2 y1 y2))
            (W256.negAddY x1 x2 y1 (W256.slope x1 x2 y1 y2))
          rw [negY256, WeierstrassCurve.Affine.negAddY]
          ring
        rw [hY]

theorem ecSmul_toAff : ∀ fuel k (P : W256.Point), k < 2 ^ fuel →
    ecSmul a256 fuel k (toAff P) = toAff (k • P) := by
  intro fuel
  induction fuel with
  | zero =>
    intro k P hk
    interval_cases k
    rw [zero_nsmul]
    rfl
  | succ f ih =>
    intro k P hk
    by_cases h0 : k = 0
    · subst h0
      rw [zero_nsmul]
      show (if 0 = 0 then none else _) = toAff 0
      rw [if_pos rfl]
      rfl
    · have hp2 : (2:Nat) ^ (f + 1) = 2 ^ f * 2 := pow_succ 2 f
      have hdf : k / 2 < 2 ^ f := by omega
      have hstep : ecSmul a256 (f + 1) k (toAff P) =
          (if k % 2 = 1 then
            ecAdd a256 (toAff P) (ecSmul a256 f (k / 2) (ecAdd a256 (toAff P) (toAff P)))
          else ecSmul a256 f (k / 2) (ecAdd a256 (toAff P) (toAff P))) := by
        show (if k = 0 then none else _) = _
        rw [if_neg h0]
      rw [hstep, ecAdd_toAff P P, ih (k / 2) (P + P) hdf]
      have h2 : (k / 2) • (P + P) = (k / 2 + k / 2) • P := by
        rw [nsmul_add, ← add_nsmul]
      by_cases hpar : k % 2 = 1
      · rw [if_pos hpar, h2, ecAdd_toAff P ((k / 2 + k / 2) • P)]
        rw [show P + (k / 2 + k / 2) • P = (k / 2 + k / 2 + 1) • P by
          rw [succ_nsmul, add_comm]]
        rw [show k / 2 + k / 2 + 1 = k by omega]
      · rw [if_neg hpar, h2]
        rw [show k / 2 + k / 2 = k by omega]

/-- Negation mod `p256` on `Nat` values: the image of `ZMod` negation under `val`. -/
def nneg (v : Nat) : Nat := (p256 - v) % p256

def nadd (u v : Nat) : Nat := (u + v) % p256

def nmul (u v : Nat) : Nat := u * v % p256

def nsub (u v : Nat) : Nat := nadd u (nneg v)

/-- The `val`-image of `bpow`: binary exponentiation mod `p256` over `Nat`. -/
def mpow256 (x : Nat) : Nat → Nat → Nat
  | 0, _ => 1
  | fuel + 1, e =>
    if e = 0 then 1
    else
      let h := mpow256 x fuel (e / 2)
      nmul (nmul h h) (if e % 2 = 1 then x else 1)

def nInv256 (v : Nat) : Nat := mpow256 v 256 (p256 - 2)

abbrev NPoint : Type := Option (Nat × Nat)

/-- The `val`-image of `ecAdd a256`: P-256 point addition over `Nat` pairs. -/
def nAdd256 : NPoint → NPoint → NPoint
  | none, q => q
  | some pt, none => some pt
  | some (x1, y1), some (x2, y2) =>
    if x1 = x2 ∧ y1 = nneg y2 then none
    else
      let lam := if x1 = x2 then nmul (nadd (nmul (nmul 3 x1) x1) (p256 - 3)) (nInv256 (nadd y1 y1))
                 else nmul (nsub y2 y1) (nInv256 (nsub x2 x1))
      let x3 := nsub (nsub (nmul lam lam) x1) x2
      some (x3, nsub (nmul lam (nsub x1 x3)) y1)

/-- One double-and-add pass over the scalar bits: state `(k, pt, acc)` maps to
`(k / 2, pt + pt, acc + (k % 2) * pt)`, iterated `fuel` times. -/
def nStepN : Nat → Nat × NPoint × NPoint → Nat × NPoint × NPoint
  | 0, s => s
  | f + 1, s =>
    nStepN f (s.1 / 2, nAdd256 s.2.1 s.2.1,
      if s.1 % 2 = 1 then nAdd256 s.2.2 s.2.1 else s.2.2)

def gxN : Nat := 48439561293906451759052585252797914202762949526041747995844080717082404635286

def gyN : Nat := 36134250956749795798585127919587881956611106672985015071877198253568414405109

instance fact_one_lt_p256 : Fact (1 < p256) := ⟨by norm_num [p256]⟩

theorem val_eq_iff (x y : ZMod p256) : x = y ↔ x.val = y.val :=
  ⟨fun h => congrArg ZMod.val h, fun h => ZMod.val_injective p256 h⟩

theorem val_neg' (x : ZMod p256) : (-x).val = nneg x.val := by
  rw [ZMod.neg_val, nneg]
  by_cases h0 : x = 0
  · rw [if_pos h0, h0]
    show 0 = (p256 - (0 : ZMod p256).val) % p256
    rw [ZMod.val_zero, Nat.sub_zero, Nat.mod_self]
  · rw [if_neg h0]
    have hlt : x.val < p256 := ZMod.val_lt x
    have hne : x.val ≠ 0 := fun h => h0 (ZMod.val_injective p256 (by rw [h, ZMod.val_zero]))
    rw [Nat.mod_eq_of_lt (by omega)]

theorem val_add' (x y : ZMod p256) : (x + y).val = nadd x.val y.val :=
  ZMod.val_add x y

theorem val_mul' (x y : ZMod p256) : (x * y).val = nmul x.val y.val :=
  ZMod.val_mul x y

theorem val_sub' (x y : ZMod p256) : (x - y).val = nsub x.val y.val := by
  rw [sub_eq_add_neg, val_add', val_neg', nsub]

theorem mpow256_val (x : ZMod p256) : ∀ fuel e, mpow256 x.val fuel e = (bpow x fuel e).val := by
  intro fuel
  induction fuel with
  | zero =>
    intro e
    show 1 = (1 : ZMod p256).val
    rw [ZMod.val_one]
  | succ f ih =>
    intro e
    show (if e = 0 then 1 else
        nmul (nmul (mpow256 x.val f (e / 2)) (mpow256 x.val f (e / 2)))
          (if e % 2 = 1 then x.val else 1)) =
      ((if e = 0 then 1 else
        bpow x f (e / 2) * bpow x f (e / 2) * (if e % 2 = 1 then x else 1) : ZMod p256)).val
    by_cases h0 : e = 0
    · rw [if_pos h0, if_pos h0, ZMod.val_one]
    · rw [if_neg h0, if_neg h0, val_mul', val_mul', ih (e / 2)]
      have hite : ((if e % 2 = 1 then x else 1 : ZMod p256)).val =
          (if e % 2 = 1 then x.val else 1) := by
        by_cases hp : e % 2 = 1
        · rw [if_pos hp, if_pos hp]
        · rw [if_neg hp, if_neg hp, ZMod.val_one]
      rw [hite]

theorem val_ecInv (x : ZMod p256) : (ecInv x).val = nInv256 x.val := by
  rw [nInv256, mpow256_val]
  rfl

def toN : AffPoint p256 → NPoint
  | none => none
  | some (x, y) => some (x.val, y.val)

theorem val_three : (3 : ZMod p256).val = 3 := by decide

theorem val_a256 : a256.val = p256 - 3 := by decide

theorem nAdd256_toN : ∀ P Q : AffPoint p256, nAdd256 (toN P) (toN Q) = toN (ecAdd a256 P Q) := by
  intro P Q
  match P, Q with
  | none, none => rfl
  | none, some (x, y) => rfl
  | some (x, y), none => rfl
  | some (x1, y1), some (x2, y2) =>
    have hcond : (x1.val = x2.val ∧ y1.val = nneg y2.val) ↔ (x1 = x2 ∧ y1 = -y2) := by
      rw [← val_neg']
      exact and_congr (val_eq_iff x1 x2).symm (val_eq_iff y1 (-y2)).symm
    by_cases hc : x1 = x2 ∧ y1 = -y2
    · show (if x1.val = x2.val ∧ y1.val = nneg y2.val then none else _) =
        toN (if x1 = x2 ∧ y1 = -y2 then none else _)
      rw [if_pos (hcond.mpr hc), if_pos hc]
      rfl
    · show (if x1.val = x2.val ∧ y1.val = nneg y2.val then none else _) =
        toN (if x1 = x2 ∧ y1 = -y2 then none else _)
      rw [if_neg (fun h => hc (hcond.mp h)), if_neg hc]
      by_cases hx : x1 = x2
      · show some _ = toN (some _)
        show some _ = some _
        rw [if_pos hx, if_pos ((val_eq_iff x1 x2).mp hx)]
        rw [← val_a256, ← val_three]
        simp only [← val_mul', ← val_add', ← val_sub', ← val_ecInv]
      · show some _ = some _
        rw [if_neg hx, if_neg (fun h => hx ((val_eq_iff x1 x2).mpr h))]
        simp only [← val_mul', ← val_add', ← val_sub', ← val_ecInv]

/-- The `Nat`-pair coordinates of a Mathlib point. -/
def ptN (P : W256.Point) : NPoint := toN (toAff P)

theorem nAdd256_ptN (P Q : W256.Point) : nAdd256 (ptN P) (ptN Q) = ptN (P + Q) := by
  rw [ptN, ptN, ptN, nAdd256_toN, ecAdd_toAff]

theorem mod_two_mul_aux (k q : Nat) (hq : 0 < q) :
    k % (2 * q) = k % 2 + 2 * (k / 2 % q) := by
  have h1 := Nat.div_add_mod k 2
  have h2 := Nat.div_add_mod (k / 2) q
  have hs : k / 2 % q < q := Nat.mod_lt _ hq
  have hr : k % 2 < 2 := Nat.mod_lt _ (by omega)
  have hk : k = 2 * q * (k / 2 / q) + (k % 2 + 2 * (k / 2 % q)) := by
    conv_lhs => rw [← h1, ← h2]
    ring
  conv_lhs => rw [hk]
  rw [Nat.mul_add_mod]
  exact Nat.mod_eq_of_lt (by omega)

theorem nStepN_corr : ∀ (f k : Nat) (P A : W256.Point),
    nStepN f (k, ptN P, ptN A) =
      (k / 2 ^ f, ptN ((2 ^ f) • P), ptN (A + (k % 2 ^ f) • P)) := by
  intro f
  induction f with
  | zero =>
    intro k P A
    rw [pow_zero, Nat.div_one, Nat.mod_one, one_nsmul, zero_nsmul, add_zero]
    rfl
  | succ f ih =>
    intro k P A
    show nStepN f (k / 2, nAdd256 (ptN P) (ptN P),
        if k % 2 = 1 then nAdd256 (ptN A) (ptN P) else ptN A) = _
    have hop : nAdd256 (ptN P) (ptN P) = ptN (2 • P) := by
      rw [nAdd256_ptN, two_nsmul]
    have hoa : (if k % 2 = 1 then nAdd256 (ptN A) (ptN P) else ptN A) =
        ptN (A + (k % 2) • P) := by
      by_cases hp : k % 2 = 1
      · rw [if_pos hp, hp, one_nsmul, nAdd256_ptN]
      · rw [if_neg hp]
        have h0 : k % 2 = 0 := by omega
        rw [h0, zero_nsmul, add_zero]
    rw [hop, hoa, ih (k / 2) (2 • P) (A + (k % 2) • P)]
    have hq : (0:Nat) < 2 ^ f := Nat.pos_pow_of_pos f (by omega)
    have e1 : k / 2 / 2 ^ f = k / 2 ^ (f + 1) := by
      rw [Nat.div_div_eq_div_mul, pow_succ, mul_comm (2 ^ f) 2]
    have e2 : (2 ^ f) • (2 • P) = (2 ^ (f + 1)) • P := by
      rw [← mul_nsmul, pow_succ, mul_comm (2 ^ f) 2]
    have e3 : A + (k % 2) • P + (k / 2 % 2 ^ f) • (2 • P) = A + (k % 2 ^ (f + 1)) • P := by
      rw [← mul_nsmul, add_assoc, ← add_nsmul]
      have : k % 2 ^ (f + 1) = k % 2 + 2 * (k / 2 % 2 ^ f) := by
        rw [pow_succ, mul_comm (2 ^ f) 2]
        exact mod_two_mul_aux k (2 ^ f) hq
      rw [this, mul_comm 2 (k / 2 % 2 ^ f)]
    rw [e1, e2, e3]

/-- Kernel evaluation of the full double-and-add loop: after all 256 bits of
`n256`, the accumulator is the point at infinity, i.e. `n256 * G = 0`. -/
theorem nStepN_full : nStepN 256 (n256, some (gxN, gyN), none) =
    (0, some (5020455767449249521318142673103379929932104188174155071185162992986202608202, 74462411220784035193134971991304486214774552560095008269501393017494332267103), none) := by decide

theorem ptN_GPt : ptN GPt = some (gxN, gyN) := rfl

theorem ptN_eq_none {P : W256.Point} (h : ptN P = none) : P = 0 := by
  cases P with
  | zero => rfl
  | some hh => exact absurd h (by simp [ptN, toAff, toN])

theorem nG_eq_zero : n256 • GPt = 0 := by
  have h := nStepN_corr 256 n256 GPt 0
  rw [ptN_GPt, show ptN (0 : W256.Point) = none from rfl, nStepN_full] at h
  have h3 := congrArg (fun t : Nat × NPoint × NPoint => t.2.2) h
  simp only [] at h3
  rw [zero_add, Nat.mod_eq_of_lt (show n256 < 2 ^ 256 by norm_num [n256])] at h3
  exact ptN_eq_none h3.symm

theorem addOrderOf_GPt : addOrderOf GPt = n256 := by
  have hdvd : addOrderOf GPt ∣ n256 := addOrderOf_dvd_of_nsmul_eq_zero nG_eq_zero
  rcases Nat.Prime.eq_one_or_self_of_dvd prime_n256 _ hdvd with h1 | h2
  · exact absurd (AddMonoid.addOrderOf_eq_one_iff.mp h1)
      (WeierstrassCurve.Affine.Point.some_ne_zero gNonsingular)
  · exact h2

theorem smul_GPt_ne_zero {k : Nat} (h0 : 0 < k) (hk : k < n256) : k • GPt ≠ 0 := by
  intro hz
  have hdvd : addOrderOf GPt ∣ k := addOrderOf_dvd_of_nsmul_eq_zero hz
  rw [addOrderOf_GPt] at hdvd
  exact absurd (Nat.le_of_dvd h0 hdvd) (by omega)

theorem scalarBaseMult256_onCurve (d : Nat) (h : d % n256 ≠ 0) :
    ∃ x y : ZMod p256, scalarBaseMult256 d = (x.val, y.val) ∧
      W256.Nonsingular x y ∧ some (x, y) = toAff ((d % n256) • GPt) := by
  have hlt : d % n256 < n256 := Nat.mod_lt _ (by norm_num [n256])
  have hlt2 : d % n256 < 2 ^ 256 := lt_trans hlt (by norm_num [n256])
  have hsm := ecSmul_toAff 256 (d % n256) GPt hlt2
  rw [show toAff GPt = some (gx256, gy256) from rfl] at hsm
  have hne := smul_GPt_ne_zero (Nat.pos_of_ne_zero h) hlt
  cases hP : (d % n256) • GPt with
  | zero => exact absurd (hP.trans WeierstrassCurve.Affine.Point.zero_def) hne
  | @some x y hxy =>
    refine ⟨x, y, ?_, hxy, ?_⟩
    · show (match ecSmul a256 256 (d % n256) (some (gx256, gy256)) with
        | none => ((0 : Nat), (0 : Nat)) | some (x, y) => (x.val, y.val)) = (x.val, y.val)
      rw [hsm, hP]
      rfl
    · rfl

/-- C5: for every key whose value is a nonzero residue modulo the P-256 group
order `n256` (in particular every scalar the spec's validity notion accepts),
the point computed by the scalar multiplication of `PrivateKeyToTronAddress`
(`scalarBaseMult256`) satisfies the NIST P-256 curve equation
`y^2 = x^3 - 3*x + b mod p256` and is exactly `d * G` in the P-256 group;
the curve coefficient is `-3` and the P-256 modulus differs from the
secp256k1 modulus `pK` over which the BIP32 derivation works, so the two
curves are distinct.  The zero residue class is the one exception: it yields
the `(0, 0)` infinity encoding (see the counterexample). -/
theorem claim_C5 (key : List Nat) (h : bytesToNat key % n256 ≠ 0) :
    ((scalarBaseMult256 (bytesToNat key)).2 : ZMod p256) ^ 2 =
        ((scalarBaseMult256 (bytesToNat key)).1 : ZMod p256) ^ 3 +
          a256 * ((scalarBaseMult256 (bytesToNat key)).1 : ZMod p256) + b256 ∧
      some (((scalarBaseMult256 (bytesToNat key)).1 : ZMod p256),
          ((scalarBaseMult256 (bytesToNat key)).2 : ZMod p256)) =
        toAff ((bytesToNat key % n256) • GPt) ∧
      a256 = -3 ∧ p256 ≠ pK := by
  obtain ⟨x, y, hs, hns, hta⟩ := scalarBaseMult256_onCurve (bytesToNat key) h
  rw [hs]
  show ((y.val : ZMod p256)) ^ 2 = ((x.val : ZMod p256)) ^ 3 +
      a256 * ((x.val : ZMod p256)) + b256 ∧
    some (((x.val : ZMod p256)), ((y.val : ZMod p256))) =
      toAff ((bytesToNat key % n256) • GPt) ∧ a256 = -3 ∧ p256 ≠ pK
  rw [ZMod.natCast_rightInverse x, ZMod.natCast_rightInverse y]
  have heq : y ^ 2 + 0 * x * y + 0 * y = x ^ 3 + 0 * x ^ 2 + a256 * x + b256 :=
    (W256.equation_iff x y).mp ((W256.nonsingular_iff x y).mp hns).1
  exact ⟨by linear_combination heq, hta, by decide, by decide⟩

/-- Witness for C5 at the one-byte key `[1]`: the scalar `1` is a nonzero
residue modulo `n256`, so the theorem applies; the computed point is the base
point itself. -/
theorem claim_C5_witness :
    bytesToNat [1] % n256 ≠ 0 ∧
      (((scalarBaseMult256 (bytesToNat [1])).2 : ZMod p256) ^ 2 =
          ((scalarBaseMult256 (bytesToNat [1])).1 : ZMod p256) ^ 3 +
            a256 * ((scalarBaseMult256 (bytesToNat [1])).1 : ZMod p256) + b256 ∧
        some (((scalarBaseMult256 (bytesToNat [1])).1 : ZMod p256),
            ((scalarBaseMult256 (bytesToNat [1])).2 : ZMod p256)) =
          toAff ((bytesToNat [1] % n256) • GPt) ∧
        a256 = -3 ∧ p256 ≠ pK) :=
  ⟨by decide, claim_C5 [1] (by decide)⟩

/-- Counterexample to the universal quantifier of C5 read over all accepted
keys: the all-zero key is accepted by `PrivateKeyToTronAddress` (C1: every key
is), but its computed point is the `(0, 0)` infinity encoding, which does not
satisfy the P-256 curve equation because `b256 ≠ 0`. -/
theorem claim_C5_counterexample :
    (PrivateKeyToTronAddress [0]).2 = none ∧
      scalarBaseMult256 (bytesToNat [0]) = (0, 0) ∧
      ¬ ((0 : ZMod p256) ^ 2 = (0 : ZMod p256) ^ 3 + a256 * 0 + b256) :=
  ⟨rfl, rfl, by decide⟩
